import Mathlib

/-!
Verification development for a Discord→Telegram message-forwarding bridge.

Each definition below is a shallow embedding of the corresponding Python
source (`app/models/message.py`, `app/models/server.py`,
`app/utils/rate_limiter.py`, `app/services/telegram_service.py`,
`app/services/message_processor.py`).

Conventions of the embedding:
* Python `float` quantities (times, rate multipliers, memory sizes) are
  modelled as `ℚ`; Python `int` counters as `ℕ`/`ℤ`.
* Python regex character classes `\w` and `\s` and `str.strip()` are
  modelled on their ASCII fragments (`\w` additionally matches non-ASCII
  word characters in Python 3; every concrete input used below is ASCII,
  where the embedding agrees with Python exactly).
* Fallible Python code (pydantic validators raising `ValueError`) is
  modelled with `Option`: `none` is a `ValidationError`.
* External effects (HTTP calls, the Telegram bot API, the event loop) are
  modelled as explicit oracle parameters; an exception thrown by an
  external call is an `Except.error` value.
-/

namespace DiscordParser

/-! ## Character classes (ASCII fragments of Python's regex classes) -/

/-- ASCII fragment of Python's `\s` (also the set stripped by `str.strip()`). -/
def pyIsSpace (c : Char) : Bool :=
  c = ' ' || c = '\t' || c = '\n' || c = '\r' || c = '\x0b' || c = '\x0c'

/-- ASCII fragment of Python's `\w`: letters, digits and underscore. -/
def pyIsWordChar (c : Char) : Bool :=
  ('a' ≤ c && c ≤ 'z') || ('A' ≤ c && c ≤ 'Z') || c.isDigit || c = '_'

/-! ## The three mention regexes of `DiscordMessage.clean_content`

`re.sub(r'<@!?\d+>', '[User]', v)`, `re.sub(r'<#\d+>', '[Channel]', v)`,
`re.sub(r'<@&\d+>', '[Role]', v)`.  Each matcher below is given the text
that follows a literal `<` and, on success, returns the text that follows
the closing `>` of the match. -/

/-- Consume the remaining digits of `\d+` and then a literal `>`. -/
def parseDigitsGt : List Char → Option (List Char)
  | [] => none
  | c :: rest =>
    if c = '>' then some rest
    else if c.isDigit then parseDigitsGt rest
    else none

/-- Consume `\d+>`: at least one digit, then a literal `>`. -/
def parseNumGt : List Char → Option (List Char)
  | [] => none
  | c :: rest => if c.isDigit then parseDigitsGt rest else none

/-- After a `<`: body of `r'<@!?\d+>'`. -/
def matchUser : List Char → Option (List Char)
  | [] => none
  | c :: rest =>
    if c = '@' then
      match rest with
      | [] => parseNumGt []
      | c2 :: rest2 => if c2 = '!' then parseNumGt rest2 else parseNumGt (c2 :: rest2)
    else none

/-- After a `<`: body of `r'<#\d+>'`. -/
def matchChannel : List Char → Option (List Char)
  | [] => none
  | c :: rest => if c = '#' then parseNumGt rest else none

/-- After a `<`: body of `r'<@&\d+>'`. -/
def matchRole : List Char → Option (List Char)
  | [] => none
  | c :: rest =>
    if c = '@' then
      match rest with
      | [] => none
      | c2 :: rest2 => if c2 = '&' then parseNumGt rest2 else none
    else none

/-! ## `re.sub` for the mention patterns

`re.sub` scans left to right, replaces each non-overlapping match by the
tag, continues scanning after the matched region, and never rescans the
inserted replacement text.  The recursion is fuelled; `reSub` supplies
`l.length` fuel, which is enough because a match always consumes at least
one character of the input (see `reSubF_fuel_eq`). -/

def reSubF (m : List Char → Option (List Char)) (tag : List Char) :
    Nat → List Char → List Char
  | _, [] => []
  | 0, l => l
  | fuel + 1, c :: rest =>
    if c = '<' then
      match m rest with
      | some rest' => tag ++ reSubF m tag fuel rest'
      | none => c :: reSubF m tag fuel rest
    else
      c :: reSubF m tag fuel rest

/-- One pass of `re.sub(pattern, tag, ·)` over a character list. -/
def reSub (m : List Char → Option (List Char)) (tag : List Char)
    (l : List Char) : List Char :=
  reSubF m tag l.length l

/-- A matcher never returns more text than it was given. -/
def MatcherShrinks (m : List Char → Option (List Char)) : Prop :=
  ∀ a r, m a = some r → r.length ≤ a.length

/-- A successful match only looks at the consumed text: extending the
input extends the leftover. -/
def MatcherExtends (m : List Char → Option (List Char)) : Prop :=
  ∀ a r b, m a = some r → m (a ++ b) = some (r ++ b)

/-- A matcher returns a suffix of its input. -/
def MatcherSuffix (m : List Char → Option (List Char)) : Prop :=
  ∀ a r, m a = some r → ∃ p, a = p ++ r

theorem parseDigitsGt_length : ∀ a r, parseDigitsGt a = some r → r.length ≤ a.length := by
  intro a
  induction a with
  | nil => intro r h; simp [parseDigitsGt] at h
  | cons c rest ih =>
    intro r h
    simp only [parseDigitsGt] at h
    split at h
    · cases h; simp
    · split at h
      · exact Nat.le_succ_of_le (ih r h)
      · cases h

theorem parseNumGt_length : ∀ a r, parseNumGt a = some r → r.length ≤ a.length := by
  intro a r h
  cases a with
  | nil => simp [parseNumGt] at h
  | cons c rest =>
    simp only [parseNumGt] at h
    split at h
    · exact Nat.le_succ_of_le (parseDigitsGt_length rest r h)
    · cases h

theorem matchUser_shrinks : MatcherShrinks matchUser := by
  intro a r h
  match a with
  | [] => simp [matchUser] at h
  | [c] =>
    simp only [matchUser] at h
    split at h
    · simp [parseNumGt] at h
    · cases h
  | c :: c2 :: rest2 =>
    simp only [matchUser] at h
    split at h
    · split at h
      · have := parseNumGt_length _ r h
        simp only [List.length_cons]; omega
      · have := parseNumGt_length _ r h
        simp only [List.length_cons] at *; omega
    · cases h

theorem matchChannel_shrinks : MatcherShrinks matchChannel := by
  intro a r h
  match a with
  | [] => simp [matchChannel] at h
  | c :: rest =>
    simp only [matchChannel] at h
    split at h
    · have := parseNumGt_length _ r h
      simp only [List.length_cons]; omega
    · cases h

theorem matchRole_shrinks : MatcherShrinks matchRole := by
  intro a r h
  match a with
  | [] => simp [matchRole] at h
  | [c] =>
    simp only [matchRole] at h
    split at h
    · cases h
    · cases h
  | c :: c2 :: rest2 =>
    simp only [matchRole] at h
    split at h
    · split at h
      · have := parseNumGt_length _ r h
        simp only [List.length_cons]; omega
      · cases h
    · cases h

theorem parseDigitsGt_extends :
    ∀ a r b, parseDigitsGt a = some r → parseDigitsGt (a ++ b) = some (r ++ b) := by
  intro a
  induction a with
  | nil => intro r b h; simp [parseDigitsGt] at h
  | cons c rest ih =>
    intro r b h
    simp only [parseDigitsGt] at h
    simp only [List.cons_append, parseDigitsGt]
    split at h
    · cases h
      simp_all
    · split at h
      · simp_all [ih r b h]
      · cases h

theorem parseNumGt_extends :
    ∀ a r b, parseNumGt a = some r → parseNumGt (a ++ b) = some (r ++ b) := by
  intro a r b h
  cases a with
  | nil => simp [parseNumGt] at h
  | cons c rest =>
    simp only [parseNumGt] at h
    simp only [List.cons_append, parseNumGt]
    split at h
    · simp_all [parseDigitsGt_extends rest r b h]
    · cases h

theorem matchUser_extends : MatcherExtends matchUser := by
  intro a r b h
  match a with
  | [] => simp [matchUser] at h
  | [c] =>
    simp only [matchUser] at h
    split at h
    · simp [parseNumGt] at h
    · cases h
  | c :: c2 :: rest2 =>
    simp only [matchUser] at h
    simp only [List.cons_append, matchUser]
    split at h
    · split at h
      · simp_all [parseNumGt_extends _ r b h]
      · have hext := parseNumGt_extends (c2 :: rest2) r b h
        simp only [List.cons_append] at hext
        simp_all [hext]
    · cases h

theorem matchChannel_extends : MatcherExtends matchChannel := by
  intro a r b h
  match a with
  | [] => simp [matchChannel] at h
  | c :: rest =>
    simp only [matchChannel] at h
    simp only [List.cons_append, matchChannel]
    split at h
    · simp_all [parseNumGt_extends _ r b h]
    · cases h

theorem matchRole_extends : MatcherExtends matchRole := by
  intro a r b h
  match a with
  | [] => simp [matchRole] at h
  | [c] =>
    simp only [matchRole] at h
    split at h
    · cases h
    · cases h
  | c :: c2 :: rest2 =>
    simp only [matchRole] at h
    simp only [List.cons_append, matchRole]
    split at h
    · split at h
      · simp_all [parseNumGt_extends _ r b h]
      · cases h
    · cases h

theorem parseDigitsGt_suffix :
    ∀ a r, parseDigitsGt a = some r → ∃ p, a = p ++ r := by
  intro a
  induction a with
  | nil => intro r h; simp [parseDigitsGt] at h
  | cons c rest ih =>
    intro r h
    simp only [parseDigitsGt] at h
    split at h
    · cases h; exact ⟨[c], rfl⟩
    · split at h
      · obtain ⟨p, hp⟩ := ih r h
        exact ⟨c :: p, by simp [hp]⟩
      · cases h

theorem parseNumGt_suffix :
    ∀ a r, parseNumGt a = some r → ∃ p, a = p ++ r := by
  intro a r h
  cases a with
  | nil => simp [parseNumGt] at h
  | cons c rest =>
    simp only [parseNumGt] at h
    split at h
    · obtain ⟨p, hp⟩ := parseDigitsGt_suffix rest r h
      exact ⟨c :: p, by simp [hp]⟩
    · cases h

theorem matchUser_suffix : MatcherSuffix matchUser := by
  intro a r h
  match a with
  | [] => simp [matchUser] at h
  | [c] =>
    simp only [matchUser] at h
    split at h
    · simp [parseNumGt] at h
    · cases h
  | c :: c2 :: rest2 =>
    simp only [matchUser] at h
    split at h
    · split at h
      · obtain ⟨p, hp⟩ := parseNumGt_suffix _ r h
        exact ⟨c :: c2 :: p, by simp [hp]⟩
      · obtain ⟨p, hp⟩ := parseNumGt_suffix _ r h
        exact ⟨c :: p, by simp [← hp]⟩
    · cases h

theorem matchChannel_suffix : MatcherSuffix matchChannel := by
  intro a r h
  match a with
  | [] => simp [matchChannel] at h
  | c :: rest =>
    simp only [matchChannel] at h
    split at h
    · obtain ⟨p, hp⟩ := parseNumGt_suffix _ r h
      exact ⟨c :: p, by simp [hp]⟩
    · cases h

theorem matchRole_suffix : MatcherSuffix matchRole := by
  intro a r h
  match a with
  | [] => simp [matchRole] at h
  | [c] =>
    simp only [matchRole] at h
    split at h
    · cases h
    · cases h
  | c :: c2 :: rest2 =>
    simp only [matchRole] at h
    split at h
    · split at h
      · obtain ⟨p, hp⟩ := parseNumGt_suffix _ r h
        exact ⟨c :: c2 :: p, by simp [hp]⟩
      · cases h
    · cases h

theorem reSubF_nil (m : List Char → Option (List Char)) (tag : List Char)
    (fuel : Nat) : reSubF m tag fuel [] = [] := by
  cases fuel <;> rfl

theorem reSubF_succ_lt_some (m : List Char → Option (List Char)) (tag : List Char)
    {fuel : Nat} {rest rest' : List Char} (h : m rest = some rest') :
    reSubF m tag (fuel + 1) ('<' :: rest) = tag ++ reSubF m tag fuel rest' := by
  simp [reSubF, h]

theorem reSubF_succ_lt_none (m : List Char → Option (List Char)) (tag : List Char)
    {fuel : Nat} {rest : List Char} (h : m rest = none) :
    reSubF m tag (fuel + 1) ('<' :: rest) = '<' :: reSubF m tag fuel rest := by
  simp [reSubF, h]

theorem reSubF_succ_ne (m : List Char → Option (List Char)) (tag : List Char)
    {fuel : Nat} {c : Char} {rest : List Char} (hc : c ≠ '<') :
    reSubF m tag (fuel + 1) (c :: rest) = c :: reSubF m tag fuel rest := by
  simp [reSubF, hc]

theorem reSubF_fuel_eq (m : List Char → Option (List Char))
    (hm : MatcherShrinks m) (tag : List Char) :
    ∀ f1 f2 l, l.length ≤ f1 → l.length ≤ f2 →
      reSubF m tag f1 l = reSubF m tag f2 l := by
  intro f1
  induction f1 with
  | zero =>
    intro f2 l h1 h2
    have : l = [] := List.eq_nil_of_length_eq_zero (Nat.le_zero.mp h1)
    subst this
    simp [reSubF_nil]
  | succ f ih =>
    intro f2 l h1 h2
    cases l with
    | nil => simp [reSubF_nil]
    | cons c rest =>
      cases f2 with
      | zero => simp at h2
      | succ f2' =>
        simp only [List.length_cons, Nat.succ_le_succ_iff] at h1 h2
        by_cases hc : c = '<'
        · subst hc
          cases hmr : m rest with
          | some rest' =>
            rw [reSubF_succ_lt_some m tag hmr, reSubF_succ_lt_some m tag hmr]
            have hr := hm rest rest' hmr
            exact congrArg (tag ++ ·) (ih f2' rest' (le_trans hr h1) (le_trans hr h2))
          | none =>
            rw [reSubF_succ_lt_none m tag hmr, reSubF_succ_lt_none m tag hmr]
            exact congrArg ('<' :: ·) (ih f2' rest h1 h2)
        · rw [reSubF_succ_ne m tag hc, reSubF_succ_ne m tag hc]
          exact congrArg (c :: ·) (ih f2' rest h1 h2)

theorem reSub_nil (m : List Char → Option (List Char)) (tag : List Char) :
    reSub m tag [] = [] := rfl

theorem reSub_cons_ne (m : List Char → Option (List Char)) (tag : List Char)
    {c : Char} {rest : List Char} (hc : c ≠ '<') :
    reSub m tag (c :: rest) = c :: reSub m tag rest := by
  unfold reSub
  simp only [List.length_cons]
  rw [reSubF_succ_ne m tag hc]

theorem reSub_lt_none (m : List Char → Option (List Char)) (tag : List Char)
    {rest : List Char} (h : m rest = none) :
    reSub m tag ('<' :: rest) = '<' :: reSub m tag rest := by
  unfold reSub
  simp only [List.length_cons]
  rw [reSubF_succ_lt_none m tag h]

theorem reSub_lt_some (m : List Char → Option (List Char))
    (hm : MatcherShrinks m) (tag : List Char)
    {rest rest' : List Char} (h : m rest = some rest') :
    reSub m tag ('<' :: rest) = tag ++ reSub m tag rest' := by
  unfold reSub
  simp only [List.length_cons]
  rw [reSubF_succ_lt_some m tag h]
  exact congrArg (tag ++ ·)
    (reSubF_fuel_eq m hm tag rest.length rest'.length rest' (hm _ _ h) le_rfl)

/-- A sub pass over text free of `<` leaves it unchanged. -/
theorem reSub_of_no_lt (m : List Char → Option (List Char)) (tag : List Char) :
    ∀ l, (∀ c ∈ l, c ≠ '<') → reSub m tag l = l := by
  intro l
  induction l with
  | nil => intro _; rfl
  | cons c rest ih =>
    intro h
    rw [reSub_cons_ne m tag (h c (by simp))]
    exact congrArg (c :: ·) (ih fun d hd => h d (by simp [hd]))

/-- No position of the text starts a match of `m` (positions are scanned
the way `re.sub` scans them: a candidate match can only begin right after
a literal `<`). -/
def noMatch (m : List Char → Option (List Char)) : List Char → Bool
  | [] => true
  | c :: rest => (if c = '<' then (m rest).isNone else true) && noMatch m rest

theorem noMatch_cons_ne (m : List Char → Option (List Char)) {c : Char}
    {rest : List Char} (hc : c ≠ '<') :
    noMatch m (c :: rest) = noMatch m rest := by
  simp [noMatch, hc]

theorem noMatch_cons_lt (m : List Char → Option (List Char)) {rest : List Char} :
    noMatch m ('<' :: rest) = ((m rest).isNone && noMatch m rest) := by
  simp [noMatch]

/-- A pass of `re.sub` is the identity on text with no match. -/
theorem reSub_of_noMatch (m : List Char → Option (List Char)) (tag : List Char) :
    ∀ l, noMatch m l = true → reSub m tag l = l := by
  intro l
  induction l with
  | nil => intro _; rfl
  | cons c rest ih =>
    intro h
    by_cases hc : c = '<'
    · subst hc
      rw [noMatch_cons_lt] at h
      obtain ⟨h1, h2⟩ := Bool.and_eq_true_iff.mp h
      rw [reSub_lt_none m tag (Option.isNone_iff_eq_none.mp h1)]
      exact congrArg _ (ih h2)
    · rw [noMatch_cons_ne m hc] at h
      rw [reSub_cons_ne m tag hc]
      exact congrArg _ (ih h)

theorem noMatch_append_left (m : List Char → Option (List Char)) :
    ∀ a b, (∀ c ∈ a, c ≠ '<') → noMatch m (a ++ b) = noMatch m b := by
  intro a
  induction a with
  | nil => intro b _; rfl
  | cons c rest ih =>
    intro b h
    rw [List.cons_append, noMatch_cons_ne m (h c (by simp))]
    exact ih b fun d hd => h d (by simp [hd])

/-- `noMatch` restricts to any suffix. -/
theorem noMatch_of_append_right (m : List Char → Option (List Char)) :
    ∀ a b, noMatch m (a ++ b) = true → noMatch m b = true := by
  intro a
  induction a with
  | nil => intro b h; exact h
  | cons c rest ih =>
    intro b h
    simp only [List.cons_append, noMatch, Bool.and_eq_true] at h
    exact ih b h.2

/-- `noMatch` restricts to any left part, as long as the matcher is
prefix-determined. -/
theorem noMatch_of_append_left (m : List Char → Option (List Char))
    (hext : MatcherExtends m) :
    ∀ a b, noMatch m (a ++ b) = true → noMatch m a = true := by
  intro a
  induction a with
  | nil => intro b _; rfl
  | cons c rest ih =>
    intro b h
    by_cases hc : c = '<'
    · subst hc
      rw [List.cons_append, noMatch_cons_lt] at h
      obtain ⟨h1, h2⟩ := Bool.and_eq_true_iff.mp h
      rw [noMatch_cons_lt]
      refine Bool.and_eq_true_iff.mpr ⟨?_, ih b h2⟩
      cases hmr : m rest with
      | some r =>
        rw [hext rest r b hmr] at h1
        simp at h1
      | none => rfl
    · rw [List.cons_append, noMatch_cons_ne m hc] at h
      rw [noMatch_cons_ne m hc]
      exact ih b h

/-! ## `str.strip()` -/

/-- Leading-whitespace removal of `str.strip()`. -/
def trimLeft (l : List Char) : List Char := l.dropWhile pyIsSpace

/-- Trailing-whitespace removal of `str.strip()`. -/
def trimRight (l : List Char) : List Char := (l.reverse.dropWhile pyIsSpace).reverse

/-- `str.strip()` on a character list. -/
def pyStrip (l : List Char) : List Char := trimRight (trimLeft l)

theorem dropWhile_head_false (p : Char → Bool) :
    ∀ l c rest, List.dropWhile p l = c :: rest → p c = false := by
  intro l
  induction l with
  | nil => intro c rest h; cases h
  | cons d tail ih =>
    intro c rest h
    by_cases hd : p d = true
    · rw [List.dropWhile_cons, if_pos hd] at h
      exact ih c rest h
    · rw [List.dropWhile_cons, if_neg hd] at h
      cases h
      simpa using hd

theorem dropWhile_dropWhile (p : Char → Bool) (l : List Char) :
    List.dropWhile p (List.dropWhile p l) = List.dropWhile p l := by
  cases hl : List.dropWhile p l with
  | nil => rfl
  | cons c rest =>
    rw [List.dropWhile_cons, if_neg]
    simp [dropWhile_head_false p l c rest hl]

/-- The input splits as dropped prefix plus `trimLeft`. -/
theorem trimLeft_decomp (l : List Char) : ∃ a, l = a ++ trimLeft l :=
  ⟨l.takeWhile pyIsSpace, (List.takeWhile_append_dropWhile pyIsSpace l).symm⟩

/-- The input splits as `trimRight` plus dropped suffix. -/
theorem trimRight_decomp (l : List Char) : ∃ b, l = trimRight l ++ b := by
  refine ⟨(l.reverse.takeWhile pyIsSpace).reverse, ?_⟩
  unfold trimRight
  rw [← List.reverse_append, List.takeWhile_append_dropWhile, List.reverse_reverse]

theorem trimLeft_trimLeft (l : List Char) : trimLeft (trimLeft l) = trimLeft l :=
  dropWhile_dropWhile pyIsSpace l

theorem trimRight_trimRight (l : List Char) : trimRight (trimRight l) = trimRight l := by
  unfold trimRight
  rw [List.reverse_reverse, dropWhile_dropWhile pyIsSpace]

theorem trimLeft_trimRight_trimLeft (l : List Char) :
    trimLeft (trimRight (trimLeft l)) = trimRight (trimLeft l) := by
  cases hu : trimRight (trimLeft l) with
  | nil => rfl
  | cons c rest =>
    obtain ⟨b, hb⟩ := trimRight_decomp (trimLeft l)
    rw [hu] at hb
    have hc : pyIsSpace c = false := by
      have hcd : trimLeft l = c :: (rest ++ b) := by simpa using hb
      exact dropWhile_head_false pyIsSpace l c (rest ++ b) hcd
    unfold trimLeft
    rw [List.dropWhile_cons, if_neg (by simp [hc])]

/-- `str.strip()` is idempotent. -/
theorem pyStrip_pyStrip (l : List Char) : pyStrip (pyStrip l) = pyStrip l := by
  unfold pyStrip
  rw [trimLeft_trimRight_trimLeft, trimRight_trimRight]

/-- `str.strip()` of match-free text is match-free. -/
theorem noMatch_pyStrip (m : List Char → Option (List Char))
    (hext : MatcherExtends m) (l : List Char) (h : noMatch m l = true) :
    noMatch m (pyStrip l) = true := by
  have h1 : noMatch m (trimLeft l) = true := by
    obtain ⟨a, ha⟩ := trimLeft_decomp l
    exact noMatch_of_append_right m a _ (ha ▸ h)
  obtain ⟨b, hb⟩ := trimRight_decomp (trimLeft l)
  exact noMatch_of_append_left m hext _ b (hb ▸ h1)

/-! ## Failed matches stay failed after a substitution pass

The replacement tags all start with `[`, which can occur nowhere inside a
mention token, so substituting elsewhere in the text cannot create a new
match in front of a position where none was possible before. -/

theorem parseDigitsGt_reSub_none (m : List Char → Option (List Char))
    (hm : MatcherShrinks m) (tag : List Char) (htag : ∃ t, tag = '[' :: t) :
    ∀ l, parseDigitsGt l = none → parseDigitsGt (reSub m tag l) = none := by
  intro l
  induction l with
  | nil => intro h; simpa [reSub_nil] using h
  | cons c rest ih =>
    intro h
    by_cases hgt : c = '>'
    · subst hgt; simp [parseDigitsGt] at h
    · by_cases hlt : c = '<'
      · subst hlt
        cases hmr : m rest with
        | some rest' =>
          rw [reSub_lt_some m hm tag hmr]
          obtain ⟨t, ht⟩ := htag
          subst ht
          simp [parseDigitsGt]
        | none =>
          rw [reSub_lt_none m tag hmr]
          simp [parseDigitsGt]
      · rw [reSub_cons_ne m tag hlt]
        by_cases hd : c.isDigit
        · have h' : parseDigitsGt rest = none := by
            simpa [parseDigitsGt, hgt, hd] using h
          simp only [parseDigitsGt, if_neg hgt, if_pos hd]
          exact ih h'
        · simp [parseDigitsGt, hgt, hd]

theorem parseNumGt_reSub_none (m : List Char → Option (List Char))
    (hm : MatcherShrinks m) (tag : List Char) (htag : ∃ t, tag = '[' :: t) :
    ∀ l, parseNumGt l = none → parseNumGt (reSub m tag l) = none := by
  intro l h
  cases l with
  | nil => simpa [reSub_nil] using h
  | cons c rest =>
    by_cases hlt : c = '<'
    · subst hlt
      cases hmr : m rest with
      | some rest' =>
        rw [reSub_lt_some m hm tag hmr]
        obtain ⟨t, ht⟩ := htag
        subst ht
        simp [parseNumGt]
      | none =>
        rw [reSub_lt_none m tag hmr]
        simp [parseNumGt]
    · rw [reSub_cons_ne m tag hlt]
      by_cases hd : c.isDigit
      · have h' : parseDigitsGt rest = none := by
          simpa [parseNumGt, hd] using h
        simp only [parseNumGt, if_pos hd]
        exact parseDigitsGt_reSub_none m hm tag htag rest h'
      · simp [parseNumGt, hd]

theorem matchUser_reSub_none (m : List Char → Option (List Char))
    (hm : MatcherShrinks m) (tag : List Char) (htag : ∃ t, tag = '[' :: t) :
    ∀ l, matchUser l = none → matchUser (reSub m tag l) = none := by
  intro l h
  cases l with
  | nil => simpa [reSub_nil] using h
  | cons c rest =>
    by_cases hat : c = '@'
    · subst hat
      rw [reSub_cons_ne m tag (by decide)]
      cases rest with
      | nil => simp [reSub_nil, matchUser, parseNumGt]
      | cons c2 rest2 =>
        by_cases hbang : c2 = '!'
        · subst hbang
          have h' : parseNumGt rest2 = none := by simpa [matchUser] using h
          rw [reSub_cons_ne m tag (by decide)]
          simp only [matchUser, if_pos rfl]
          simpa using parseNumGt_reSub_none m hm tag htag rest2 h'
        · have h' : parseNumGt (c2 :: rest2) = none := by
            simpa [matchUser, hbang] using h
          by_cases hlt : c2 = '<'
          · subst hlt
            cases hmr : m rest2 with
            | some r' =>
              rw [reSub_lt_some m hm tag hmr]
              obtain ⟨t, ht⟩ := htag
              subst ht
              simp [matchUser, parseNumGt]
            | none =>
              rw [reSub_lt_none m tag hmr]
              simp [matchUser, parseNumGt]
          · rw [reSub_cons_ne m tag hlt]
            have h'' := parseNumGt_reSub_none m hm tag htag (c2 :: rest2) h'
            rw [reSub_cons_ne m tag hlt] at h''
            simp only [matchUser, if_pos rfl, if_neg hbang]
            exact h''
    · by_cases hlt : c = '<'
      · subst hlt
        cases hmr : m rest with
        | some r' =>
          rw [reSub_lt_some m hm tag hmr]
          obtain ⟨t, ht⟩ := htag
          subst ht
          simp [matchUser]
        | none =>
          rw [reSub_lt_none m tag hmr]
          simp [matchUser]
      · rw [reSub_cons_ne m tag hlt]
        simp [matchUser, hat]

theorem matchChannel_reSub_none (m : List Char → Option (List Char))
    (hm : MatcherShrinks m) (tag : List Char) (htag : ∃ t, tag = '[' :: t) :
    ∀ l, matchChannel l = none → matchChannel (reSub m tag l) = none := by
  intro l h
  cases l with
  | nil => simpa [reSub_nil] using h
  | cons c rest =>
    by_cases hsh : c = '#'
    · subst hsh
      have h' : parseNumGt rest = none := by simpa [matchChannel] using h
      rw [reSub_cons_ne m tag (by decide)]
      simp only [matchChannel, if_pos rfl]
      exact parseNumGt_reSub_none m hm tag htag rest h'
    · by_cases hlt : c = '<'
      · subst hlt
        cases hmr : m rest with
        | some r' =>
          rw [reSub_lt_some m hm tag hmr]
          obtain ⟨t, ht⟩ := htag
          subst ht
          simp [matchChannel]
        | none =>
          rw [reSub_lt_none m tag hmr]
          simp [matchChannel]
      · rw [reSub_cons_ne m tag hlt]
        simp [matchChannel, hsh]

theorem matchRole_reSub_none (m : List Char → Option (List Char))
    (hm : MatcherShrinks m) (tag : List Char) (htag : ∃ t, tag = '[' :: t) :
    ∀ l, matchRole l = none → matchRole (reSub m tag l) = none := by
  intro l h
  cases l with
  | nil => simpa [reSub_nil] using h
  | cons c rest =>
    by_cases hat : c = '@'
    · subst hat
      rw [reSub_cons_ne m tag (by decide)]
      cases rest with
      | nil => simp [reSub_nil, matchRole]
      | cons c2 rest2 =>
        by_cases hamp : c2 = '&'
        · subst hamp
          have h' : parseNumGt rest2 = none := by simpa [matchRole] using h
          rw [reSub_cons_ne m tag (by decide)]
          simp only [matchRole, if_pos rfl]
          simpa using parseNumGt_reSub_none m hm tag htag rest2 h'
        · by_cases hlt : c2 = '<'
          · subst hlt
            cases hmr : m rest2 with
            | some r' =>
              rw [reSub_lt_some m hm tag hmr]
              obtain ⟨t, ht⟩ := htag
              subst ht
              simp [matchRole]
            | none =>
              rw [reSub_lt_none m tag hmr]
              simp [matchRole]
          · rw [reSub_cons_ne m tag hlt]
            simp [matchRole, hamp]
    · by_cases hlt : c = '<'
      · subst hlt
        cases hmr : m rest with
        | some r' =>
          rw [reSub_lt_some m hm tag hmr]
          obtain ⟨t, ht⟩ := htag
          subst ht
          simp [matchRole]
        | none =>
          rw [reSub_lt_none m tag hmr]
          simp [matchRole]
      · rw [reSub_cons_ne m tag hlt]
        simp [matchRole, hat]

/-- The output of a substitution pass contains no match of its own pattern. -/
theorem noMatch_reSub (m : List Char → Option (List Char)) (tag : List Char)
    (hm : MatcherShrinks m) (htagne : ∀ c ∈ tag, c ≠ '<')
    (hpres : ∀ l, m l = none → m (reSub m tag l) = none) :
    ∀ n l, l.length ≤ n → noMatch m (reSub m tag l) = true := by
  intro n
  induction n with
  | zero =>
    intro l h
    have : l = [] := List.eq_nil_of_length_eq_zero (Nat.le_zero.mp h)
    subst this
    simp [reSub_nil, noMatch]
  | succ n ih =>
    intro l h
    cases l with
    | nil => simp [reSub_nil, noMatch]
    | cons c rest =>
      simp only [List.length_cons, Nat.succ_le_succ_iff] at h
      by_cases hlt : c = '<'
      · subst hlt
        cases hmr : m rest with
        | some rest' =>
          rw [reSub_lt_some m hm tag hmr]
          rw [noMatch_append_left m tag _ htagne]
          exact ih rest' (le_trans (hm _ _ hmr) h)
        | none =>
          rw [reSub_lt_none m tag hmr]
          rw [noMatch_cons_lt]
          refine Bool.and_eq_true_iff.mpr ⟨?_, ih rest h⟩
          simp [hpres rest hmr]
      · rw [reSub_cons_ne m tag hlt]
        rw [noMatch_cons_ne m hlt]
        exact ih rest h

/-- A substitution pass for one pattern preserves freedom from another
pattern (the tags contain no `<`). -/
theorem noMatch_reSub_other (m1 m2 : List Char → Option (List Char))
    (tag2 : List Char) (hm2 : MatcherShrinks m2) (hsuf2 : MatcherSuffix m2)
    (htagne : ∀ c ∈ tag2, c ≠ '<')
    (hcross : ∀ l, m1 l = none → m1 (reSub m2 tag2 l) = none) :
    ∀ n l, l.length ≤ n → noMatch m1 l = true →
      noMatch m1 (reSub m2 tag2 l) = true := by
  intro n
  induction n with
  | zero =>
    intro l h _
    have : l = [] := List.eq_nil_of_length_eq_zero (Nat.le_zero.mp h)
    subst this
    simp [reSub_nil, noMatch]
  | succ n ih =>
    intro l h hnm
    cases l with
    | nil => simp [reSub_nil, noMatch]
    | cons c rest =>
      simp only [List.length_cons, Nat.succ_le_succ_iff] at h
      by_cases hlt : c = '<'
      · subst hlt
        rw [noMatch_cons_lt] at hnm
        obtain ⟨h1, h2⟩ := Bool.and_eq_true_iff.mp hnm
        cases hmr : m2 rest with
        | some rest' =>
          rw [reSub_lt_some m2 hm2 tag2 hmr]
          rw [noMatch_append_left m1 tag2 _ htagne]
          obtain ⟨p, hp⟩ := hsuf2 rest rest' hmr
          have hrest' : noMatch m1 rest' = true :=
            noMatch_of_append_right m1 p rest' (hp ▸ h2)
          exact ih rest' (le_trans (hm2 _ _ hmr) h) hrest'
        | none =>
          rw [reSub_lt_none m2 tag2 hmr]
          rw [noMatch_cons_lt]
          refine Bool.and_eq_true_iff.mpr ⟨?_, ih rest h h2⟩
          have := hcross rest (Option.isNone_iff_eq_none.mp h1)
          simp [this]
      · rw [reSub_cons_ne m2 tag2 hlt]
        rw [noMatch_cons_ne m1 hlt] at hnm
        rw [noMatch_cons_ne m1 hlt]
        exact ih rest h hnm

/-! ## `DiscordMessage.clean_content` -/

/-- The three sequential `re.sub` passes of `clean_content`. -/
def cleanMentions (l : List Char) : List Char :=
  reSub matchRole "[Role]".data
    (reSub matchChannel "[Channel]".data
      (reSub matchUser "[User]".data l))

/-- The total normalization underlying `clean_content`: replace mention
tokens, then `str.strip()`. -/
def normalizeContent (v : String) : String :=
  String.mk (pyStrip (cleanMentions v.data))

/-- `DiscordMessage.clean_content`: `none` models the raised `ValueError`. -/
def clean_content (v : String) : Option String :=
  if v.data = [] then none
  else if (normalizeContent v).data = [] then none
  else some (normalizeContent v)

theorem tagUser_head : ∃ t, "[User]".data = '[' :: t := ⟨"User]".data, by decide⟩

theorem tagChannel_head : ∃ t, "[Channel]".data = '[' :: t :=
  ⟨"Channel]".data, by decide⟩

theorem tagRole_head : ∃ t, "[Role]".data = '[' :: t := ⟨"Role]".data, by decide⟩

theorem tagUser_no_lt : ∀ c ∈ "[User]".data, c ≠ '<' := by decide

theorem tagChannel_no_lt : ∀ c ∈ "[Channel]".data, c ≠ '<' := by decide

theorem tagRole_no_lt : ∀ c ∈ "[Role]".data, c ≠ '<' := by decide

/-- After the three passes and the strip, no mention pattern matches
anywhere in the text. -/
theorem cleanMentions_noMatch (l : List Char) :
    noMatch matchUser (pyStrip (cleanMentions l)) = true ∧
    noMatch matchChannel (pyStrip (cleanMentions l)) = true ∧
    noMatch matchRole (pyStrip (cleanMentions l)) = true := by
  set u1 := reSub matchUser "[User]".data l with hu1
  set u2 := reSub matchChannel "[Channel]".data u1 with hu2
  set u3 := reSub matchRole "[Role]".data u2 with hu3
  have hU1 : noMatch matchUser u1 = true :=
    noMatch_reSub matchUser "[User]".data matchUser_shrinks tagUser_no_lt
      (matchUser_reSub_none matchUser matchUser_shrinks _ tagUser_head)
      l.length l le_rfl
  have hU2 : noMatch matchUser u2 = true :=
    noMatch_reSub_other matchUser matchChannel "[Channel]".data
      matchChannel_shrinks matchChannel_suffix tagChannel_no_lt
      (matchUser_reSub_none matchChannel matchChannel_shrinks _ tagChannel_head)
      u1.length u1 le_rfl hU1
  have hU3 : noMatch matchUser u3 = true :=
    noMatch_reSub_other matchUser matchRole "[Role]".data
      matchRole_shrinks matchRole_suffix tagRole_no_lt
      (matchUser_reSub_none matchRole matchRole_shrinks _ tagRole_head)
      u2.length u2 le_rfl hU2
  have hC2 : noMatch matchChannel u2 = true :=
    noMatch_reSub matchChannel "[Channel]".data matchChannel_shrinks
      tagChannel_no_lt
      (matchChannel_reSub_none matchChannel matchChannel_shrinks _ tagChannel_head)
      u1.length u1 le_rfl
  have hC3 : noMatch matchChannel u3 = true :=
    noMatch_reSub_other matchChannel matchRole "[Role]".data
      matchRole_shrinks matchRole_suffix tagRole_no_lt
      (matchChannel_reSub_none matchRole matchRole_shrinks _ tagRole_head)
      u2.length u2 le_rfl hC2
  have hR3 : noMatch matchRole u3 = true :=
    noMatch_reSub matchRole "[Role]".data matchRole_shrinks tagRole_no_lt
      (matchRole_reSub_none matchRole matchRole_shrinks _ tagRole_head)
      u2.length u2 le_rfl
  have hcm : cleanMentions l = u3 := rfl
  rw [hcm]
  exact ⟨noMatch_pyStrip matchUser matchUser_extends u3 hU3,
    noMatch_pyStrip matchChannel matchChannel_extends u3 hC3,
    noMatch_pyStrip matchRole matchRole_extends u3 hR3⟩

/-- Match-free text is fixed by all three passes. -/
theorem cleanMentions_of_noMatch (l : List Char)
    (hU : noMatch matchUser l = true) (hC : noMatch matchChannel l = true)
    (hR : noMatch matchRole l = true) : cleanMentions l = l := by
  unfold cleanMentions
  rw [reSub_of_noMatch matchUser _ _ hU, reSub_of_noMatch matchChannel _ _ hC,
    reSub_of_noMatch matchRole _ _ hR]

/-- Normalization fixes its own output. -/
theorem normalizeContent_fixpoint (v : String) :
    normalizeContent (normalizeContent v) = normalizeContent v := by
  obtain ⟨hU, hC, hR⟩ := cleanMentions_noMatch v.data
  have hy : (normalizeContent v).data = pyStrip (cleanMentions v.data) := rfl
  have hsub : cleanMentions (normalizeContent v).data =
      (normalizeContent v).data := by
    rw [hy]
    exact cleanMentions_of_noMatch _ hU hC hR
  show String.mk (pyStrip (cleanMentions (normalizeContent v).data)) = _
  rw [hsub, hy, pyStrip_pyStrip]
  rfl

/-! ## `DiscordMessage.clean_names` and message construction -/

/-- The character class kept by `re.sub(r'[^\w\s\-\.]', '', v)`. -/
def keepNameChar (c : Char) : Bool :=
  pyIsWordChar c || pyIsSpace c || c = '-' || c = '.'

/-- The total normalization underlying `clean_names`: delete characters
outside `[\w\s\-\.]`, then `str.strip()`. -/
def cleanedName (v : String) : List Char :=
  pyStrip (v.data.filter keepNameChar)

/-- `DiscordMessage.clean_names`: `none` models the raised `ValueError`. -/
def clean_names (v : String) : Option String :=
  if v.data = [] then none
  else if cleanedName v = [] then none
  else some (String.mk (cleanedName v))

/-- The validated fields of `DiscordMessage` (the optional metadata fields
carry no validator and play no role in any claim, so they are omitted;
`timestamp` is an instant modelled as `ℤ`). -/
structure DiscordMessage where
  content : String
  timestamp : ℤ
  server_name : String
  channel_name : String
  author : String
deriving DecidableEq, Repr

/-- Construction of a `DiscordMessage` under pydantic's validation:
every `pre` validator transforms its field, then the declared length
constraints apply (`content ≤ 4000`, names ≤ 100, author ≤ 50), and
`validate_timestamp` rejects instants after `now`.  `none` models a
`ValidationError` on any field. -/
def mkDiscordMessage (now : ℤ) (content : String) (timestamp : ℤ)
    (server_name channel_name author : String) : Option DiscordMessage :=
  match clean_content content with
  | none => none
  | some c =>
    if 4000 < c.length then none
    else if now < timestamp then none
    else
      match clean_names server_name, clean_names channel_name,
          clean_names author with
      | some s, some ch, some a =>
        if 100 < s.length || 100 < ch.length || 50 < a.length then none
        else some { content := c, timestamp := timestamp, server_name := s,
                    channel_name := ch, author := a }
      | _, _, _ => none

example : normalizeContent "<@!123>   " = "[User]" := by decide

example : normalizeContent "<#1>  " = "[Channel]" := by decide

example : normalizeContent "a <@&77> b" = "a [Role] b" := by decide

example : clean_content "<@99>" = some "[User]" := by decide

example : clean_content " \t " = none := by decide

example : clean_names "a\tb" = some "a\tb" := by decide

example : clean_names " ###x## " = some "x" := by decide

example :
    mkDiscordMessage 5 "hi <@1>" 5 "My Server" "news" "bob" =
      some { content := "hi [User]", timestamp := 5, server_name := "My Server",
             channel_name := "news", author := "bob" } := by decide

example : mkDiscordMessage 5 "hi" 6 "My Server" "news" "bob" = none := by decide

/-! ## `SystemStats` (`app/models/server.py`) -/

/-- System-wide statistics.  All counters carry pydantic's `ge=0`
constraint, so they are `ℕ`; float metrics are `ℚ`; `last_error_time` is
an instant. -/
structure SystemStats where
  total_servers : ℕ := 0
  total_channels : ℕ := 0
  active_servers : ℕ := 0
  active_channels : ℕ := 0
  messages_processed_today : ℕ := 0
  messages_processed_total : ℕ := 0
  average_response_time_ms : ℚ := 0
  memory_usage_mb : ℚ := 0
  uptime_seconds : ℕ := 0
  discord_requests_per_hour : ℕ := 0
  telegram_requests_per_hour : ℕ := 0
  errors_last_hour : ℕ := 0
  last_error : Option String := none
  last_error_time : Option ℤ := none
deriving DecidableEq, Repr

/-- `SystemStats.health_score`: start at 100, subtract for errors, high
memory and inactivity, clamp at 0. -/
def health_score (s : SystemStats) : ℚ :=
  let score : ℚ := 100
  let score := if 0 < s.errors_last_hour then
    score - min 50 ((s.errors_last_hour : ℚ) * 5) else score
  let score := if 1500 < s.memory_usage_mb then score - 20 else score
  let score := if s.active_channels = 0 then score - 30 else score
  max 0 score

example : health_score { errors_last_hour := 3, active_channels := 2 } = 85 := by
  norm_num [health_score, min_def]

example :
    health_score { errors_last_hour := 40, memory_usage_mb := 2000,
                   active_channels := 0 } = 0 := by
  norm_num [health_score, min_def]

/-! ## The ingress queue (`MessageProcessor.queue_message`)

`MessageProcessor.__init__` creates `asyncio.Queue(maxsize=1000)` and
`queue_message` runs `await self.message_queue.put(message)` inside
`try: ... except asyncio.QueueFull: <count the drop>`.

Library semantics being modelled: `asyncio.Queue.put` on a full queue
*suspends the caller until a slot frees* and never raises
`asyncio.QueueFull` (only the non-blocking `put_nowait` raises it), so the
`except` branch is unreachable. -/

/-- Outcome of `await asyncio.Queue.put(item)`. -/
inductive PutOutcome (α : Type) where
  | ok (queue : List α)
  | suspended
deriving DecidableEq, Repr

/-- `asyncio.Queue.put` for a queue with `maxsize`: enqueue when below
capacity, otherwise suspend the producer (no exception). -/
def asyncioQueuePut (maxsize : ℕ) (q : List DiscordMessage)
    (m : DiscordMessage) : PutOutcome DiscordMessage :=
  if q.length < maxsize then .ok (q ++ [m]) else .suspended

/-- Result of a call to `queue_message`: whether the coroutine completed
or is left suspended on the full queue, plus queue and stats afterwards. -/
structure QueueMessageResult where
  completed : Bool
  queue : List DiscordMessage
  stats : SystemStats
deriving DecidableEq, Repr

/-- `MessageProcessor.queue_message` with the ingress queue's capacity of
1000.  The `except asyncio.QueueFull` handler (log the drop and
`errors_last_hour += 1`, leaving `last_error` untouched) is dead code
because `put` suspends instead of raising, so no path of the embedding
reaches it. -/
def queue_message (q : List DiscordMessage) (stats : SystemStats)
    (m : DiscordMessage) : QueueMessageResult :=
  match asyncioQueuePut 1000 q m with
  | .ok q' => { completed := true, queue := q', stats := stats }
  | .suspended => { completed := false, queue := q, stats := stats }

/-! ## `RateLimiter` (`app/utils/rate_limiter.py`)

Times (`time.time()`) and the adaptive multiplier are `ℚ`.  The bucket
dictionary is a map from string keys to buckets; the per-second bucket for
key `k` at time `now` lives under the string key
`f"{k}_1s_{now - now % 1}"`, where `now - now % 1` is the whole-valued
float `⌊now⌋` and Python renders such a float as `str(⌊now⌋) + ".0"`
(exact for the magnitudes a unix clock produces). -/

/-- `RateLimitBucket` with its dataclass defaults. -/
structure RateLimitBucket where
  requests : ℕ := 0
  reset_time : ℚ := 0
  window_seconds : ℚ := 60
deriving DecidableEq, Repr

/-- The state of a `RateLimiter` (the fields `acquire` reads and writes;
`record_success`/`record_error` touch only the counters and multiplier). -/
structure RateLimiter where
  requests_per_second : Option ℚ := none
  requests_per_minute : Option ℕ := none
  buckets : String → Option RateLimitBucket
  error_count : ℕ := 0
  success_count : ℕ := 0
  adaptive_multiplier : ℚ := 1

/-- Store a bucket under a key. -/
def updateBuckets (b : String → Option RateLimitBucket) (k : String)
    (v : RateLimitBucket) : String → Option RateLimitBucket :=
  fun k' => if k' = k then some v else b k'

/-- Python's `str()` of the whole-valued float `now - now % 1`. -/
def floatWholeRepr (z : ℤ) : String := toString z ++ ".0"

/-- The dictionary key of the 1-second bucket:
`f"{identifier}_1s_{window_1s}"`. -/
def secondKey (identifier : String) (now : ℚ) : String :=
  identifier ++ "_1s_" ++ floatWholeRepr ⌊now⌋

/-- The window-rollover step of `acquire`: `if now >= bucket.reset_time:
bucket.requests = 0; bucket.reset_time = now + bucket.window_seconds`. -/
def resetIfExpired (now : ℚ) (b : RateLimitBucket) : RateLimitBucket :=
  if b.reset_time ≤ now then
    { b with requests := 0, reset_time := now + b.window_seconds }
  else b

/-- `RateLimiter.acquire(identifier)` at time `now`: get or create the
key's minute bucket, clear it if its window expired, test the per-minute
cap (`if self.requests_per_minute:` — a `0` cap is falsy and skips the
test), then maintain and test the per-(key, second) bucket the same way,
and only then increment and return `True`. -/
def acquire (now : ℚ) (identifier : String) (rl : RateLimiter) :
    Bool × RateLimiter :=
  let bucket0 := (rl.buckets identifier).getD {}
  let bucket1 := resetIfExpired now bucket0
  let bks1 := updateBuckets rl.buckets identifier bucket1
  let minuteBlocked :=
    match rl.requests_per_minute with
    | none => false
    | some cap =>
      if cap = 0 then false
      else decide ((cap : ℚ) * rl.adaptive_multiplier ≤ (bucket1.requests : ℚ))
  if minuteBlocked then (false, { rl with buckets := bks1 })
  else
    match rl.requests_per_second with
    | some caps =>
      if caps = 0 then
        let bksInc := updateBuckets bks1 identifier
          ({ bucket1 with requests := bucket1.requests + 1 })
        (true, { rl with buckets := bksInc })
      else
        let k2 := secondKey identifier now
        let sb0 := (bks1 k2).getD ({ window_seconds := 1 } : RateLimitBucket)
        let bks2 := updateBuckets bks1 k2 sb0
        if caps * rl.adaptive_multiplier ≤ (sb0.requests : ℚ) then
          (false, { rl with buckets := bks2 })
        else
          let bks3 := updateBuckets bks2 k2 ({ sb0 with requests := sb0.requests + 1 })
          let bks4 := updateBuckets bks3 identifier
            ({ bucket1 with requests := bucket1.requests + 1 })
          (true, { rl with buckets := bks4 })
    | none =>
      let bksInc := updateBuckets bks1 identifier
        ({ bucket1 with requests := bucket1.requests + 1 })
      (true, { rl with buckets := bksInc })

/-- A sequence of `acquire` calls for one key at given times; returns how
many calls returned `True` and the final state. -/
def acquireRun (identifier : String) : RateLimiter → List ℚ → ℕ × RateLimiter
  | rl, [] => (0, rl)
  | rl, t :: ts =>
    let step := acquire t identifier rl
    let rest := acquireRun identifier step.2 ts
    (rest.1 + (if step.1 then 1 else 0), rest.2)

/-- The request count a dictionary records under a key (0 when absent). -/
def bucketRequests (o : Option RateLimitBucket) : ℕ :=
  match o with
  | none => 0
  | some b => b.requests

example :
    (acquire 1 "k"
      { requests_per_minute := some 2,
        buckets := fun _ => none }).1 = true := by with_unfolding_all decide

example :
    (acquireRun "k"
      { requests_per_minute := some 2, buckets := fun _ => none }
      [1, 2, 3, 4]).1 = 2 := by with_unfolding_all decide

example :
    (acquireRun "k"
      { requests_per_minute := some 2, requests_per_second := some 1,
        buckets := fun _ => none }
      [1, 2, 3, 4]).1 = 2 := by with_unfolding_all decide

example :
    (acquireRun "k"
      { requests_per_minute := some 10, requests_per_second := some 1,
        buckets := fun _ => none }
      [1, (3 : ℚ)/2, 2, 3]).1 = 3 := by with_unfolding_all decide

/-! ## `TelegramService.send_message` (`app/services/telegram_service.py`)

The whole body runs inside `try: ... except Exception: record_error();
return False`.  External effects are oracle parameters:

* `wait_if_needed("telegram_send")` either returns `True` or raises the
  rate limiter's `TimeoutError` (it never returns `False`);
* `_get_or_create_topic` catches all its own exceptions (both the
  existence probe and the creation path end in `except ... return None`),
  so it yields an optional topic id and never raises;
* `self.bot.send_message(...)` either raises, or returns a (possibly
  falsy) message object — `.ok none` is a falsy return, `.ok (some id)`
  an accepted message with its id;
* `_save_persistent_data` catches its own exceptions ("log, do not block
  delivery"), so it never raises. -/

structure SendEnv where
  waitRaises : Bool
  topic : Option ℤ
  sendOutcome : Except Unit (Option ℕ)

/-- What one call to `send_message` returned and did. -/
structure SendResult where
  returned : Bool
  raisedToCaller : Bool
  recordedError : Bool
  recordedSuccess : Bool
  usedThreadId : Option ℤ
  trackedMessageId : Option ℕ
deriving DecidableEq, Repr

/-- `TelegramService.send_message` over the effect oracles;
`use_topics` is `self.settings.use_topics`, and the thread id passed to
`sendMessage` is `topic_id if self.settings.use_topics else None`. -/
def send_message (use_topics : Bool) (env : SendEnv) : SendResult :=
  if env.waitRaises then
    { returned := false, raisedToCaller := false, recordedError := true,
      recordedSuccess := false, usedThreadId := none, trackedMessageId := none }
  else
    let threadId := if use_topics then env.topic else none
    match env.sendOutcome with
    | .error _ =>
      { returned := false, raisedToCaller := false, recordedError := true,
        recordedSuccess := false, usedThreadId := threadId,
        trackedMessageId := none }
    | .ok none =>
      { returned := false, raisedToCaller := false, recordedError := false,
        recordedSuccess := false, usedThreadId := threadId,
        trackedMessageId := none }
    | .ok (some id) =>
      { returned := true, raisedToCaller := false, recordedError := false,
        recordedSuccess := true, usedThreadId := threadId,
        trackedMessageId := some id }

/-! ## `TelegramService.send_messages_batch`

Groups by `message.server_name` into an insertion-ordered dict, sorts
each group in place with the stable `list.sort(key=lambda x: x.timestamp)`
(modelled by the stable `List.insertionSort`), then sends group by group,
counting the successful sends.  Whether an individual send succeeds is an
oracle `ok : DiscordMessage → Bool`. -/

/-- Comparison used by `list.sort(key=lambda x: x.timestamp)`. -/
def tsLe (a b : DiscordMessage) : Prop := a.timestamp ≤ b.timestamp

instance : DecidableRel tsLe := fun a b => Int.decLe a.timestamp b.timestamp

instance : IsTotal DiscordMessage tsLe := ⟨fun a b => Int.le_total a.timestamp b.timestamp⟩

instance : IsTrans DiscordMessage tsLe :=
  ⟨fun _ _ _ h1 h2 => Int.le_trans h1 h2⟩

/-- Append a message to its server's group, or open a new group at the
end (Python dict preserves insertion order). -/
def addToGroups (groups : List (String × List DiscordMessage))
    (m : DiscordMessage) : List (String × List DiscordMessage) :=
  match groups with
  | [] => [(m.server_name, [m])]
  | (k, l) :: rest =>
    if k = m.server_name then (k, l ++ [m]) :: rest
    else (k, l) :: addToGroups rest m

/-- The `server_groups` dict of `send_messages_batch`. -/
def groupByServer (messages : List DiscordMessage) :
    List (String × List DiscordMessage) :=
  messages.foldl addToGroups []

/-- `send_messages_batch`: returns the count of successful sends and the
sequence of messages handed to the sink, in order. -/
def send_messages_batch (ok : DiscordMessage → Bool)
    (messages : List DiscordMessage) : ℕ × List DiscordMessage :=
  if messages.isEmpty then (0, [])
  else
    (groupByServer messages).foldl
      (fun acc g =>
        let sorted := g.2.insertionSort tsLe
        (sorted.foldl (fun c m => if ok m then c + 1 else c) acc.1,
         acc.2 ++ sorted))
      (0, [])

/-- Every message sits in the group of its own server, and group keys are
pairwise distinct. -/
def GroupsWF (gs : List (String × List DiscordMessage)) : Prop :=
  (∀ p ∈ gs, ∀ x ∈ p.2, x.server_name = p.1) ∧ (gs.map Prod.fst).Nodup

theorem keys_addToGroups (gs : List (String × List DiscordMessage))
    (m : DiscordMessage) :
    (addToGroups gs m).map Prod.fst =
      if m.server_name ∈ gs.map Prod.fst then gs.map Prod.fst
      else gs.map Prod.fst ++ [m.server_name] := by
  induction gs with
  | nil => simp [addToGroups]
  | cons p rest ih =>
    obtain ⟨k, l⟩ := p
    by_cases hk : k = m.server_name
    · simp [addToGroups, hk]
    · simp only [addToGroups, if_neg hk, List.map_cons, ih]
      by_cases hmem : m.server_name ∈ rest.map Prod.fst
      · simp [hmem, Ne.symm hk]
      · simp [hmem, Ne.symm hk]

theorem groupsWF_addToGroups (gs : List (String × List DiscordMessage))
    (m : DiscordMessage) (h : GroupsWF gs) : GroupsWF (addToGroups gs m) := by
  obtain ⟨hmem, hnd⟩ := h
  constructor
  · intro p hp x hx
    induction gs with
    | nil =>
      simp only [addToGroups, List.mem_singleton] at hp
      subst hp
      simp only [List.mem_singleton] at hx
      subst hx
      rfl
    | cons q rest ih =>
      obtain ⟨k, l⟩ := q
      by_cases hk : k = m.server_name
      · simp only [addToGroups, if_pos hk, List.mem_cons] at hp
        rcases hp with hp | hp
        · subst hp
          simp only [List.mem_append, List.mem_singleton] at hx
          rcases hx with hx | hx
          · exact hmem (k, l) (by simp) x hx
          · subst hx; exact hk.symm
        · exact hmem p (by simp [hp]) x hx
      · simp only [addToGroups, if_neg hk, List.mem_cons] at hp
        rcases hp with hp | hp
        · subst hp
          exact hmem (k, l) (by simp) x hx
        · exact ih (fun p hp' x hx' => hmem p (by simp [hp']) x hx')
            (by simpa using hnd.sublist (List.sublist_cons_self _ _)) hp
  · rw [keys_addToGroups]
    by_cases hmem2 : m.server_name ∈ gs.map Prod.fst
    · simpa [hmem2] using hnd
    · rw [if_neg hmem2]
      exact List.Nodup.append hnd (List.nodup_singleton _)
        (by simpa using fun h' => hmem2 h')

open List in
theorem flatten_addToGroups (gs : List (String × List DiscordMessage))
    (m : DiscordMessage) :
    ((addToGroups gs m).map Prod.snd).flatten ~
      (gs.map Prod.snd).flatten ++ [m] := by
  induction gs with
  | nil => simp [addToGroups]
  | cons p rest ih =>
    obtain ⟨k, l⟩ := p
    by_cases hk : k = m.server_name
    · simp only [addToGroups, if_pos hk, List.map_cons, List.flatten_cons]
      calc (l ++ [m]) ++ (rest.map Prod.snd).flatten
          = l ++ ([m] ++ (rest.map Prod.snd).flatten) := by simp
        _ ~ l ++ ((rest.map Prod.snd).flatten ++ [m]) :=
            List.Perm.append_left l (List.perm_append_comm)
        _ = (l ++ (rest.map Prod.snd).flatten) ++ [m] := by simp
    · simp only [addToGroups, if_neg hk, List.map_cons, List.flatten_cons]
      calc l ++ ((addToGroups rest m).map Prod.snd).flatten
          ~ l ++ ((rest.map Prod.snd).flatten ++ [m]) := List.Perm.append_left l ih
        _ = (l ++ (rest.map Prod.snd).flatten) ++ [m] := by simp

open List in
theorem flatten_groupByServer (messages : List DiscordMessage) :
    ((groupByServer messages).map Prod.snd).flatten ~ messages := by
  suffices h : ∀ (ms : List DiscordMessage)
      (gs : List (String × List DiscordMessage)),
      ((ms.foldl addToGroups gs).map Prod.snd).flatten ~
        (gs.map Prod.snd).flatten ++ ms by
    simpa using h messages []
  intro ms
  induction ms with
  | nil => intro gs; simp
  | cons m rest ih =>
    intro gs
    calc ((List.foldl addToGroups (addToGroups gs m) rest).map Prod.snd).flatten
        ~ ((addToGroups gs m).map Prod.snd).flatten ++ rest := ih _
      _ ~ ((gs.map Prod.snd).flatten ++ [m]) ++ rest :=
          (flatten_addToGroups gs m).append_right rest
      _ = (gs.map Prod.snd).flatten ++ (m :: rest) := by simp

theorem groupsWF_groupByServer (messages : List DiscordMessage) :
    GroupsWF (groupByServer messages) := by
  suffices h : ∀ (ms : List DiscordMessage)
      (gs : List (String × List DiscordMessage)),
      GroupsWF gs → GroupsWF (ms.foldl addToGroups gs) by
    exact h messages [] ⟨by simp, by simp⟩
  intro ms
  induction ms with
  | nil => intro gs h; exact h
  | cons m rest ih =>
    intro gs h
    exact ih (addToGroups gs m) (groupsWF_addToGroups gs m h)

/-- The sink-side trace of a batch: each group sorted, in group order. -/
def sortedJoin (gs : List (String × List DiscordMessage)) :
    List DiscordMessage :=
  (gs.map (fun g => g.2.insertionSort tsLe)).flatten

theorem countP_foldl (ok : DiscordMessage → Bool) :
    ∀ (l : List DiscordMessage) (c : ℕ),
      l.foldl (fun c m => if ok m then c + 1 else c) c = c + l.countP ok := by
  intro l
  induction l with
  | nil => intro c; simp
  | cons m rest ih =>
    intro c
    by_cases hm : ok m
    · simp [List.countP_cons, hm, ih]
      omega
    · simp [List.countP_cons, hm, ih]

theorem send_messages_batch_eq (ok : DiscordMessage → Bool)
    (messages : List DiscordMessage) :
    send_messages_batch ok messages =
      ((sortedJoin (groupByServer messages)).countP ok,
        sortedJoin (groupByServer messages)) := by
  unfold send_messages_batch
  by_cases h : messages.isEmpty
  · have h0 : messages = [] := List.isEmpty_iff.mp h
    subst h0
    simp [groupByServer, sortedJoin]
  · rw [if_neg h]
    suffices hgen : ∀ (gs : List (String × List DiscordMessage)) (c0 : ℕ)
        (t0 : List DiscordMessage),
        gs.foldl (fun acc g =>
          ((g.2.insertionSort tsLe).foldl
            (fun c m => if ok m then c + 1 else c) acc.1,
           acc.2 ++ g.2.insertionSort tsLe)) (c0, t0) =
          (c0 + (sortedJoin gs).countP ok, t0 ++ sortedJoin gs) by
      simpa using hgen (groupByServer messages) 0 []
    intro gs
    induction gs with
    | nil => intro c0 t0; simp [sortedJoin]
    | cons g rest ih =>
      intro c0 t0
      simp only [List.foldl_cons]
      rw [ih, countP_foldl]
      have hsj : sortedJoin (g :: rest) =
          g.2.insertionSort tsLe ++ sortedJoin rest := rfl
      rw [hsj, List.countP_append]
      simp only [Prod.mk.injEq]
      exact ⟨by omega, by simp [List.append_assoc]⟩

open List in
theorem sortedJoin_perm (gs : List (String × List DiscordMessage)) :
    sortedJoin gs ~ (gs.map Prod.snd).flatten := by
  induction gs with
  | nil => simp [sortedJoin]
  | cons g rest ih =>
    simp only [sortedJoin, List.map_cons, List.flatten_cons] at *
    exact (List.perm_insertionSort tsLe g.2).append ih

/-- Every element of the trace lies in one of the groups. -/
theorem mem_sortedJoin (gs : List (String × List DiscordMessage))
    (x : DiscordMessage) (hx : x ∈ sortedJoin gs) : ∃ p ∈ gs, x ∈ p.2 := by
  induction gs with
  | nil => simp [sortedJoin] at hx
  | cons g rest ih =>
    simp only [sortedJoin, List.map_cons, List.flatten_cons,
      List.mem_append] at hx
    rcases hx with hx | hx
    · exact ⟨g, by simp, (List.perm_insertionSort tsLe g.2).mem_iff.mp hx⟩
    · obtain ⟨p, hp, hxp⟩ := ih hx
      exact ⟨p, by simp [hp], hxp⟩

open List in
theorem sortedJoin_filter_sorted (gs : List (String × List DiscordMessage))
    (hwf : GroupsWF gs) (g : String) :
    List.Sorted tsLe ((sortedJoin gs).filter (fun m => m.server_name = g)) := by
  induction gs with
  | nil => simp [sortedJoin]
  | cons p rest ih =>
    obtain ⟨hmem, hnd⟩ := hwf
    have hnd' : p.1 ∉ rest.map Prod.fst ∧ (rest.map Prod.fst).Nodup := by
      simpa [List.nodup_cons] using hnd
    have hwfrest : GroupsWF rest :=
      ⟨fun q hq x hx => hmem q (by simp [hq]) x hx, hnd'.2⟩
    have hpmem : ∀ x ∈ p.2.insertionSort tsLe, x.server_name = p.1 := by
      intro x hx
      exact hmem p (by simp) x ((List.perm_insertionSort tsLe p.2).mem_iff.mp hx)
    have hstep : sortedJoin (p :: rest) =
        p.2.insertionSort tsLe ++ sortedJoin rest := rfl
    rw [hstep, List.filter_append]
    by_cases hk : p.1 = g
    · have h1 : (p.2.insertionSort tsLe).filter (fun m => m.server_name = g) =
          p.2.insertionSort tsLe := by
        rw [List.filter_eq_self]
        intro x hx
        simp [hpmem x hx, hk]
      have h2 : (sortedJoin rest).filter (fun m => m.server_name = g) = [] := by
        rw [List.filter_eq_nil_iff]
        intro x hx
        obtain ⟨q, hq, hxq⟩ := mem_sortedJoin rest x hx
        have hxs : x.server_name = q.1 := hmem q (by simp [hq]) x hxq
        have hq1 : q.1 ∈ rest.map Prod.fst := List.mem_map_of_mem Prod.fst hq
        simp only [hxs, decide_eq_true_eq]
        intro hcontra
        rw [hcontra, ← hk] at hq1
        exact hnd'.1 hq1
      rw [h1, h2, List.append_nil]
      exact List.sorted_insertionSort tsLe p.2
    · have h1 : (p.2.insertionSort tsLe).filter (fun m => m.server_name = g) =
          [] := by
        rw [List.filter_eq_nil_iff]
        intro x hx
        simp [hpmem x hx, hk]
      rw [h1, List.nil_append]
      exact ih hwfrest

/-! ## Validation characterizations -/

theorem normalizeContent_nil (v : String) (h : v.data = []) :
    (normalizeContent v).data = [] := by
  show pyStrip (cleanMentions v.data) = []
  rw [h]
  rfl

theorem clean_content_none_iff (v : String) :
    clean_content v = none ↔ (normalizeContent v).data = [] := by
  unfold clean_content
  by_cases h1 : v.data = []
  · simp [h1, normalizeContent_nil v h1]
  · rw [if_neg h1]
    by_cases h2 : (normalizeContent v).data = [] <;> simp [h2]

theorem clean_content_some (v c : String) (h : clean_content v = some c) :
    c = normalizeContent v := by
  unfold clean_content at h
  split at h
  · cases h
  · split at h
    · cases h
    · exact (Option.some.injEq _ _ ▸ h).symm

theorem cleanedName_nil (v : String) (h : v.data = []) : cleanedName v = [] := by
  unfold cleanedName
  rw [h]
  rfl

theorem clean_names_none_iff (v : String) :
    clean_names v = none ↔ cleanedName v = [] := by
  unfold clean_names
  by_cases h1 : v.data = []
  · simp [h1, cleanedName_nil v h1]
  · rw [if_neg h1]
    by_cases h2 : cleanedName v = [] <;> simp [h2]

theorem clean_names_some (v w : String) (h : clean_names v = some w) :
    w.data = cleanedName v := by
  unfold clean_names at h
  split at h
  · cases h
  · split at h
    · cases h
    · cases h
      rfl

/-! ## The claims -/

/-- C7: content normalization is idempotent.  For every string `x` on
which `clean_content` succeeds with result `c`, applying it to `c`
succeeds again and returns `c` itself. -/
theorem C7_clean_content_idempotent (x c : String)
    (h : clean_content x = some c) : clean_content c = some c := by
  have hc := clean_content_some x c h
  subst hc
  have hne : (normalizeContent x).data ≠ [] := by
    intro hempty
    rw [(clean_content_none_iff x).mpr hempty] at h
    cases h
  unfold clean_content
  rw [if_neg hne]
  rw [normalizeContent_fixpoint x]
  rw [if_neg hne]

/-- Witness for C7: `clean_content " <@!123> hi "` succeeds with
`"[User] hi"`, on which `clean_content` is the identity. -/
theorem C7_witness : clean_content "[User] hi" = some "[User] hi" :=
  C7_clean_content_idempotent " <@!123> hi " "[User] hi" (by decide)

/-- C4: with every other field valid, construction fails exactly when the
timestamp is strictly later than `now`, and an accepted timestamp is
stored unchanged. -/
theorem C4_timestamp_validation (now ts : ℤ)
    (content server channel author : String)
    (c : String) (hc : clean_content content = some c) (hclen : c.length ≤ 4000)
    (s : String) (hs : clean_names server = some s) (hslen : s.length ≤ 100)
    (ch : String) (hch : clean_names channel = some ch)
    (hchlen : ch.length ≤ 100)
    (a : String) (ha : clean_names author = some a) (halen : a.length ≤ 50) :
    (mkDiscordMessage now content ts server channel author = none ↔ now < ts) ∧
    ∀ msg, mkDiscordMessage now content ts server channel author = some msg →
      msg.timestamp = ts := by
  have h4 : ¬ (4000 < c.length) := not_lt.mpr hclen
  have hnames : (decide (100 < s.length) || decide (100 < ch.length) ||
      decide (50 < a.length)) = false := by
    simp only [Bool.or_eq_false_iff, decide_eq_false_iff_not, not_lt]
    exact ⟨⟨hslen, hchlen⟩, halen⟩
  simp only [mkDiscordMessage, hc, hs, hch, ha, if_neg h4]
  by_cases hts : now < ts
  · simp [hts]
  · simp [hts, hnames]

/-- Witness for C4: at `now = 5` a message stamped `3` is accepted, so the
failure condition is equivalent to the false `5 < 3`. -/
theorem C4_witness :
    (mkDiscordMessage 5 "hi" 3 "srv" "chan" "bob" = none ↔ (5 : ℤ) < 3) :=
  (C4_timestamp_validation 5 3 "hi" "srv" "chan" "bob"
    "hi" (by decide) (by decide)
    "srv" (by decide) (by decide)
    "chan" (by decide) (by decide)
    "bob" (by decide) (by decide)).1

/-- Any all-letter content longer than 4000 characters normalizes to a
non-empty string of the same length yet is rejected at construction. -/
theorem overlong_content_rejected (n : ℕ) (hn : 4000 < n) :
    (normalizeContent (String.mk (List.replicate n 'a'))).data ≠ [] ∧
    mkDiscordMessage 0 (String.mk (List.replicate n 'a')) 0
      "srv" "chan" "auth" = none := by
  have hnlt : ∀ ch ∈ List.replicate n 'a', ch ≠ '<' := by
    intro ch hc
    rw [List.eq_of_mem_replicate hc]
    decide
  have hcm : cleanMentions (List.replicate n 'a') = List.replicate n 'a' := by
    unfold cleanMentions
    rw [reSub_of_no_lt _ _ _ hnlt, reSub_of_no_lt _ _ _ hnlt,
      reSub_of_no_lt _ _ _ hnlt]
  have hdw : ∀ k : ℕ, List.dropWhile pyIsSpace (List.replicate k 'a') =
      List.replicate k 'a' := by
    intro k
    cases k with
    | zero => rfl
    | succ j =>
      rw [List.replicate_succ, List.dropWhile_cons,
        if_neg (by decide : ¬ (pyIsSpace 'a' = true)),
        ← List.replicate_succ]
  have hstrip : pyStrip (List.replicate n 'a') = List.replicate n 'a' := by
    unfold pyStrip trimLeft trimRight
    rw [hdw, List.reverse_replicate, hdw, List.reverse_replicate]
  have hnorm : (normalizeContent (String.mk (List.replicate n 'a'))).data =
      List.replicate n 'a' := by
    show pyStrip (cleanMentions (List.replicate n 'a')) = _
    rw [hcm, hstrip]
  have hne : (normalizeContent (String.mk (List.replicate n 'a'))).data ≠
      [] := by
    rw [hnorm]
    simp
    omega
  refine ⟨hne, ?_⟩
  have hcc : clean_content (String.mk (List.replicate n 'a')) =
      some (normalizeContent (String.mk (List.replicate n 'a'))) := by
    unfold clean_content
    rw [if_neg (show ¬ ((String.mk (List.replicate n 'a')).data = []) by
        simp; omega),
      if_neg hne]
  have hlen : 4000 <
      (normalizeContent (String.mk (List.replicate n 'a'))).length := by
    show 4000 <
      (normalizeContent (String.mk (List.replicate n 'a'))).data.length
    rw [hnorm]
    simpa using hn
  simp only [mkDiscordMessage, hcc, if_pos hlen]

/-- Counterexample to C3 as stated: a content of 4001 letters normalizes
to a non-empty string, yet construction fails (pydantic's
`max_length=4000` on the cleaned content). -/
theorem C3_counterexample :
    (normalizeContent (String.mk (List.replicate 4001 'a'))).data ≠ [] ∧
    mkDiscordMessage 0 (String.mk (List.replicate 4001 'a')) 0
      "srv" "chan" "auth" = none :=
  overlong_content_rejected 4001 (by norm_num)

/-- C3 (amended): construction normalizes the content by the three mention
substitutions plus trimming, stores the normalized value, and — with every
other field valid — fails exactly when the normalized content is empty
*or longer than 4000 characters*; the raw content
`"<@!123>   "` normalizes to the non-empty `"[User]"` and is accepted. -/
theorem C3_content_normalization (content : String) :
    (mkDiscordMessage 0 content 0 "srv" "chan" "auth" = none ↔
      (normalizeContent content).data = [] ∨
        4000 < (normalizeContent content).length) ∧
    (∀ msg, mkDiscordMessage 0 content 0 "srv" "chan" "auth" = some msg →
      msg.content = normalizeContent content) ∧
    normalizeContent "<@!123>   " = "[User]" ∧
    (mkDiscordMessage 0 "<@!123>   " 0 "srv" "chan" "auth").isSome = true := by
  have hsrv : clean_names "srv" = some "srv" := by decide
  have hchan : clean_names "chan" = some "chan" := by decide
  have hauth : clean_names "auth" = some "auth" := by decide
  have hts0 : ¬ ((0 : ℤ) < 0) := by decide
  refine ⟨?_, ?_, by decide, by decide⟩
  · rcases hcc : clean_content content with _ | c
    · have hd := (clean_content_none_iff content).mp hcc
      simp [mkDiscordMessage, hcc, hd]
    · have hceq := clean_content_some content c hcc
      subst hceq
      have hne : (normalizeContent content).data ≠ [] := by
        intro hempty
        rw [(clean_content_none_iff content).mpr hempty] at hcc
        cases hcc
      by_cases hlen : 4000 < (normalizeContent content).length
      · simp [mkDiscordMessage, hcc, hlen]
      · simp only [mkDiscordMessage, hcc, if_neg hlen, if_neg hts0,
          hsrv, hchan, hauth]
        split
        · next hcond => exact absurd hcond (by decide)
        · simp [hne, hlen]
  · intro msg hmsg
    rcases hcc : clean_content content with _ | c
    · simp [mkDiscordMessage, hcc] at hmsg
    · have hceq := clean_content_some content c hcc
      subst hceq
      by_cases hlen : 4000 < (normalizeContent content).length
      · simp [mkDiscordMessage, hcc, hlen] at hmsg
      · simp only [mkDiscordMessage, hcc, if_neg hlen, if_neg hts0,
          hsrv, hchan, hauth] at hmsg
        split at hmsg
        · next hcond => exact absurd hcond (by decide)
        · cases hmsg
          rfl

/-- The character set the claim's words describe: keep only
`[A-Za-z0-9_ \-\.]` (ASCII letters, digits, underscore, the space, hyphen
and dot), then trim; fail exactly on empty.  This definition follows the
claim, not the source, and is compared against `clean_names`. -/
def specCleanName (v : String) : Option String :=
  let kept := v.data.filter fun c =>
    ('a' ≤ c && c ≤ 'z') || ('A' ≤ c && c ≤ 'Z') || c.isDigit || c = '_' ||
      c = ' ' || c = '-' || c = '.'
  let w := pyStrip kept
  if w = [] then none else some (String.mk w)

/-- Counterexample to C6 as stated: the author `"a\tb"` contains a tab,
which is outside `[A-Za-z0-9_ \-\.]`, so the claim's cleaning would yield
`"ab"`; the code's `re.sub(r'[^\w\s\-\.]', '', v)` keeps every whitespace
character, so construction succeeds and stores `"a\tb"` unchanged. -/
theorem C6_counterexample :
    mkDiscordMessage 0 "hello" 0 "srv" "chan" "a\tb" =
      some { content := "hello", timestamp := 0, server_name := "srv",
             channel_name := "chan", author := "a\tb" } ∧
    specCleanName "a\tb" = some "ab" ∧
    ("a\tb" : String) ≠ "ab" := by
  refine ⟨by decide, by decide, by decide⟩

/-- C6 (amended): construction deletes exactly the characters outside
`[\w\s\-\.]` (word characters, whitespace, hyphen, dot) from each of the
three names, trims surrounding whitespace, stores the results, and — with
the other fields valid — fails exactly when one of the three cleaned
names is empty or exceeds its pydantic length cap (100 for the server and
channel names, 50 for the author). -/
theorem C6_name_validation (server channel author : String) :
    (mkDiscordMessage 0 "hello" 0 server channel author = none ↔
      cleanedName server = [] ∨ 100 < (cleanedName server).length ∨
      cleanedName channel = [] ∨ 100 < (cleanedName channel).length ∨
      cleanedName author = [] ∨ 50 < (cleanedName author).length) ∧
    (∀ msg, mkDiscordMessage 0 "hello" 0 server channel author = some msg →
      msg.server_name.data = cleanedName server ∧
      msg.channel_name.data = cleanedName channel ∧
      msg.author.data = cleanedName author) := by
  have hhello : clean_content "hello" = some "hello" := by decide
  have hlen4000 : ¬ (4000 < ("hello" : String).length) := by decide
  have hts0 : ¬ ((0 : ℤ) < 0) := by decide
  rcases hs : clean_names server with _ | s
  · have hse := (clean_names_none_iff server).mp hs
    constructor
    · simp [mkDiscordMessage, hhello, hlen4000, hts0, hs, hse]
    · intro msg hmsg
      simp [mkDiscordMessage, hhello, hlen4000, hts0, hs] at hmsg
  · have hsd := clean_names_some server s hs
    have hsne : cleanedName server ≠ [] := by
      intro h0
      rw [(clean_names_none_iff server).mpr h0] at hs
      cases hs
    have hslen : s.length = (cleanedName server).length :=
      congrArg List.length hsd
    rcases hch : clean_names channel with _ | ch
    · have hche := (clean_names_none_iff channel).mp hch
      constructor
      · simp [mkDiscordMessage, hhello, hlen4000, hts0, hs, hch, hsne, hche]
      · intro msg hmsg
        simp [mkDiscordMessage, hhello, hlen4000, hts0, hs, hch] at hmsg
    · have hchd := clean_names_some channel ch hch
      have hchne : cleanedName channel ≠ [] := by
        intro h0
        rw [(clean_names_none_iff channel).mpr h0] at hch
        cases hch
      have hchlen : ch.length = (cleanedName channel).length :=
        congrArg List.length hchd
      rcases ha : clean_names author with _ | a
      · have hae := (clean_names_none_iff author).mp ha
        constructor
        · simp [mkDiscordMessage, hhello, hlen4000, hts0, hs, hch, ha,
            hsne, hchne, hae]
        · intro msg hmsg
          simp [mkDiscordMessage, hhello, hlen4000, hts0, hs, hch, ha] at hmsg
      · have had := clean_names_some author a ha
        have hane : cleanedName author ≠ [] := by
          intro h0
          rw [(clean_names_none_iff author).mpr h0] at ha
          cases ha
        have halen : a.length = (cleanedName author).length :=
          congrArg List.length had
        constructor
        · simp only [mkDiscordMessage, hhello, if_neg hlen4000, if_neg hts0,
            hs, hch, ha]
          split
          · next hcond =>
            simp only [Bool.or_eq_true, decide_eq_true_eq, hslen, hchlen,
              halen] at hcond
            refine iff_of_true rfl ?_
            rcases hcond with (h | h) | h
            · exact Or.inr (Or.inl h)
            · exact Or.inr (Or.inr (Or.inr (Or.inl h)))
            · exact Or.inr (Or.inr (Or.inr (Or.inr (Or.inr h))))
          · next hcond =>
            simp only [Bool.or_eq_true, decide_eq_true_eq, hslen, hchlen,
              halen, not_or, not_lt] at hcond
            obtain ⟨⟨h1, h2⟩, h3⟩ := hcond
            refine iff_of_false (by simp) ?_
            push_neg
            exact ⟨hsne, h1, hchne, h2, hane, h3⟩
        · intro msg hmsg
          simp only [mkDiscordMessage, hhello, if_neg hlen4000, if_neg hts0,
            hs, hch, ha] at hmsg
          split at hmsg
          · cases hmsg
          · cases hmsg
            exact ⟨hsd, hchd, had⟩

/-- C8: `health_score` is a pure function of
`(errors_last_hour, memory_usage_mb, active_channels)`, equals
`100 − min(50, 5·errors) − (20 if memory > 1500) − (30 if no active
channels)` clamped below at 0, and always lies in `[0, 100]`. -/
theorem C8_health_score (s : SystemStats) :
    health_score s =
      max 0 (100 - min 50 ((s.errors_last_hour : ℚ) * 5) -
        (if 1500 < s.memory_usage_mb then 20 else 0) -
        (if s.active_channels = 0 then 30 else 0)) ∧
    0 ≤ health_score s ∧ health_score s ≤ 100 ∧
    ∀ t : SystemStats, s.errors_last_hour = t.errors_last_hour →
      s.memory_usage_mb = t.memory_usage_mb →
      s.active_channels = t.active_channels →
      health_score s = health_score t := by
  have hformula : health_score s =
      max 0 (100 - min 50 ((s.errors_last_hour : ℚ) * 5) -
        (if 1500 < s.memory_usage_mb then 20 else 0) -
        (if s.active_channels = 0 then 30 else 0)) := by
    unfold health_score
    by_cases he : 0 < s.errors_last_hour
    · simp only [if_pos he]
      split_ifs <;> ring_nf
    · have he0 : s.errors_last_hour = 0 := Nat.eq_zero_of_not_pos he
      simp only [if_neg he, he0, Nat.cast_zero, zero_mul]
      rw [min_eq_right (by norm_num : (0 : ℚ) ≤ 50)]
      split_ifs <;> ring_nf
  have h1 : 0 ≤ min 50 ((s.errors_last_hour : ℚ) * 5) :=
    le_min (by norm_num) (by positivity)
  have h2 : 0 ≤ (if 1500 < s.memory_usage_mb then (20 : ℚ) else 0) := by
    split_ifs <;> norm_num
  have h3 : 0 ≤ (if s.active_channels = 0 then (30 : ℚ) else 0) := by
    split_ifs <;> norm_num
  refine ⟨hformula, ?_, ?_, ?_⟩
  · rw [hformula]
    exact le_max_left 0 _
  · rw [hformula]
    apply max_le (by norm_num)
    linarith
  · intro t ha hb hc
    simp only [health_score, ha, hb, hc]

/-- C10: `send_message` is total over internal failures: it never lets an
exception propagate, an exception anywhere on the send path (the rate
limiter's timeout included) yields `record_error()` and `False`, and
`True` comes back exactly when the sink accepted the message. -/
theorem C10_send_message_total (use_topics : Bool) (env : SendEnv) :
    (send_message use_topics env).raisedToCaller = false ∧
    ((send_message use_topics env).returned = true ↔
      env.waitRaises = false ∧ ∃ id, env.sendOutcome = Except.ok (some id)) ∧
    ((env.waitRaises = true ∨ ∃ e, env.sendOutcome = Except.error e) →
      (send_message use_topics env).recordedError = true ∧
        (send_message use_topics env).returned = false) := by
  cases henv : env.waitRaises
  · cases hout : env.sendOutcome with
    | error e => simp [send_message, henv, hout]
    | ok o => cases o <;> simp [send_message, henv, hout]
  · simp [send_message, henv]

/-- C1 evaluated at the failing input: with the ingress queue already at
its bound of 1000, `queue_message` leaves the producer suspended inside
`await put` — nothing is dropped and counted, `errors_last_hour` and
`last_error` are untouched, because `asyncio.Queue.put` never raises the
`QueueFull` the handler waits for. -/
theorem C1_queue_full_suspends (q : List DiscordMessage)
    (stats : SystemStats) (m : DiscordMessage) (h : q.length = 1000) :
    queue_message q stats m =
      { completed := false, queue := q, stats := stats } := by
  simp [queue_message, asyncioQueuePut, h]

/-- A message literal used by concrete batch scenarios. -/
def exMsg (s : String) (t : ℤ) : DiscordMessage :=
  { content := "m", timestamp := t, server_name := s, channel_name := "c",
    author := "a" }

/-- Witness for C1: a concrete full queue of 1000 messages. -/
theorem C1_witness :
    queue_message (List.replicate 1000 (exMsg "A" 1)) {} (exMsg "B" 2) =
      { completed := false, queue := List.replicate 1000 (exMsg "A" 1),
        stats := {} } :=
  C1_queue_full_suspends _ _ _ (by rw [List.length_replicate])

/-- C5: `send_messages_batch` groups by guild, hands each guild's
messages to the sink in ascending timestamp order, the trace is a
permutation of the input, the returned count is the number of successful
individual sends; on `[(A,3), (A,1), (B,2), (A,2)]` the sink receives
A: 1,2,3 then B: 2, and with every send succeeding the count is 4. -/
theorem C5_batch_order_and_count (ok : DiscordMessage → Bool)
    (messages : List DiscordMessage) :
    (∀ g : String, List.Sorted tsLe
      (((send_messages_batch ok messages).2).filter
        (fun m => m.server_name = g))) ∧
    List.Perm (send_messages_batch ok messages).2 messages ∧
    (send_messages_batch ok messages).1 = messages.countP ok ∧
    (send_messages_batch (fun _ => true)
        [exMsg "A" 3, exMsg "A" 1, exMsg "B" 2, exMsg "A" 2]).2 =
      [exMsg "A" 1, exMsg "A" 2, exMsg "A" 3, exMsg "B" 2] ∧
    (send_messages_batch (fun _ => true)
        [exMsg "A" 3, exMsg "A" 1, exMsg "B" 2, exMsg "A" 2]).1 = 4 := by
  have heq := send_messages_batch_eq ok messages
  have hperm : List.Perm (send_messages_batch ok messages).2 messages := by
    rw [heq]
    exact (sortedJoin_perm _).trans (flatten_groupByServer messages)
  refine ⟨?_, hperm, ?_, by decide, by decide⟩
  · intro g
    rw [heq]
    exact sortedJoin_filter_sorted _ (groupsWF_groupByServer messages) g
  · rw [heq]
    exact ((sortedJoin_perm _).trans (flatten_groupByServer messages)).countP_eq ok

/-- The per-second bucket never collides with the key's minute bucket:
its dictionary key is strictly longer. -/
theorem secondKey_ne (identifier : String) (now : ℚ) :
    secondKey identifier now ≠ identifier := by
  intro h
  have hlen := congrArg String.length h
  rw [secondKey, floatWholeRepr] at hlen
  have h4 : ("_1s_" : String).length = 4 := rfl
  have h2 : (".0" : String).length = 2 := rfl
  simp only [String.length_append, h4, h2] at hlen
  omega

/-- One `acquire` call for a key whose minute bucket exists and whose
window has not expired: the configuration fields are untouched, a `True`
means the count was below `cap · multiplier` and was incremented by one,
a `False` leaves the minute bucket exactly as it was, and a count at or
above `cap · multiplier` forces `False`. -/
theorem acquire_step (rl : RateLimiter) (key : String) (now : ℚ) (cap : ℕ)
    (b : RateLimitBucket) (hcap : rl.requests_per_minute = some cap)
    (hcap0 : cap ≠ 0) (hb : rl.buckets key = some b)
    (hnow : now < b.reset_time) :
    (acquire now key rl).2.requests_per_minute = some cap ∧
    (acquire now key rl).2.adaptive_multiplier = rl.adaptive_multiplier ∧
    ((acquire now key rl).1 = true →
      ((b.requests : ℚ) < (cap : ℚ) * rl.adaptive_multiplier ∧
        (acquire now key rl).2.buckets key =
          some { b with requests := b.requests + 1 })) ∧
    ((acquire now key rl).1 = false →
      (acquire now key rl).2.buckets key = some b) ∧
    ((cap : ℚ) * rl.adaptive_multiplier ≤ (b.requests : ℚ) →
      (acquire now key rl).1 = false) := by
  have hnr : ¬ (b.reset_time ≤ now) := not_le.mpr hnow
  have hkeyne : secondKey key now ≠ key := secondKey_ne key now
  by_cases hblk : (cap : ℚ) * rl.adaptive_multiplier ≤ (b.requests : ℚ)
  · have hacq : acquire now key rl =
        (false, { rl with buckets := updateBuckets rl.buckets key b }) := by
      simp [acquire, resetIfExpired, hb, hcap, hcap0, hnr, hblk]
    rw [hacq]
    refine ⟨hcap, rfl, ?_, ?_, fun _ => rfl⟩
    · intro hfalse
      cases hfalse
    · intro _
      simp [updateBuckets]
  · cases hsec : rl.requests_per_second with
    | none =>
      have hacq : acquire now key rl =
          (true,
            { rl with
                buckets := updateBuckets (updateBuckets rl.buckets key b) key
                  ({ b with requests := b.requests + 1 }) }) := by
        simp [acquire, resetIfExpired, hb, hcap, hcap0, hnr, hblk, hsec]
      rw [hacq]
      refine ⟨hcap, rfl, ?_, ?_, ?_⟩
      · intro _
        exact ⟨not_le.mp hblk, by simp [updateBuckets]⟩
      · intro hfalse
        cases hfalse
      · intro hge
        exact absurd hge hblk
    | some caps =>
      by_cases hc0 : caps = 0
      · have hacq : acquire now key rl =
            (true,
              { rl with
                  buckets := updateBuckets (updateBuckets rl.buckets key b) key
                    ({ b with requests := b.requests + 1 }) }) := by
          simp [acquire, resetIfExpired, hb, hcap, hcap0, hnr, hblk, hsec, hc0]
        rw [hacq]
        refine ⟨hcap, rfl, ?_, ?_, ?_⟩
        · intro _
          exact ⟨not_le.mp hblk, by simp [updateBuckets]⟩
        · intro hfalse
          cases hfalse
        · intro hge
          exact absurd hge hblk
      · set bks1 := updateBuckets rl.buckets key b with hbks1
        set k2 := secondKey key now with hk2
        set sb0 := (bks1 k2).getD ({ window_seconds := 1 } : RateLimitBucket)
          with hsb0
        by_cases hsb : caps * rl.adaptive_multiplier ≤ (sb0.requests : ℚ)
        · have hacq : acquire now key rl =
              (false, { rl with buckets := updateBuckets bks1 k2 sb0 }) := by
            simp [acquire, resetIfExpired, hb, hcap, hcap0, hnr, hblk, hsec, hc0,
              hsb, hbks1, hk2, hsb0]
          rw [hacq]
          refine ⟨hcap, rfl, ?_, ?_, ?_⟩
          · intro hfalse
            cases hfalse
          · intro _
            simp [updateBuckets, hbks1, Ne.symm hkeyne]
          · intro hge
            exact absurd hge hblk
        · have hacq : acquire now key rl =
              (true,
                { rl with
                    buckets := updateBuckets
                      (updateBuckets (updateBuckets bks1 k2 sb0) k2
                        ({ sb0 with requests := sb0.requests + 1 })) key
                      ({ b with requests := b.requests + 1 }) }) := by
            simp [acquire, resetIfExpired, hb, hcap, hcap0, hnr, hblk, hsec, hc0,
              hsb, hbks1, hk2, hsb0]
          rw [hacq]
          refine ⟨hcap, rfl, ?_, ?_, ?_⟩
          · intro _
            exact ⟨not_le.mp hblk, by simp [updateBuckets]⟩
          · intro hfalse
            cases hfalse
          · intro hge
            exact absurd hge hblk

/-- Run invariant: starting from a minute bucket with `r` requests, a
sequence of in-window calls returns `True` either never or few enough
times that the count stayed below `cap · multiplier` before the last
`True`. -/
theorem acquireRun_invariant (key : String) (cap : ℕ) (hcap0 : cap ≠ 0) :
    ∀ (ts : List ℚ) (rl : RateLimiter) (b : RateLimitBucket),
      rl.requests_per_minute = some cap → rl.buckets key = some b →
      (∀ t ∈ ts, t < b.reset_time) →
      ((acquireRun key rl ts).1 = 0 ∨
        ((b.requests : ℚ) + ((acquireRun key rl ts).1 : ℚ) - 1 <
          (cap : ℚ) * rl.adaptive_multiplier)) := by
  intro ts
  induction ts with
  | nil =>
    intro rl b _ _ _
    left
    rfl
  | cons t ts ih =>
    intro rl b hcap hb hts
    obtain ⟨hmin, hmul, htrue, hfalse, _⟩ :=
      acquire_step rl key t cap b hcap hcap0 hb (hts t (by simp))
    cases hok : (acquire t key rl).1 with
    | true =>
      obtain ⟨hlt, hbk⟩ := htrue hok
      have hts' : ∀ t' ∈ ts,
          t' < ({ b with requests := b.requests + 1 } : RateLimitBucket).reset_time := by
        intro t' ht'
        simpa using hts t' (by simp [ht'])
      have hrec := ih (acquire t key rl).2
        { b with requests := b.requests + 1 } hmin hbk hts'
      rw [hmul] at hrec
      have hcount : (acquireRun key rl (t :: ts)).1 =
          (acquireRun key (acquire t key rl).2 ts).1 + 1 := by
        simp [acquireRun, hok]
      rcases hrec with h0 | hlt'
      · right
        rw [hcount, h0]
        push_cast
        simpa using hlt
      · right
        rw [hcount]
        push_cast at hlt' ⊢
        linarith
    | false =>
      have hbk := hfalse hok
      have hrec := ih (acquire t key rl).2 b hmin hbk
        (fun t' ht' => hts t' (by simp [ht']))
      rw [hmul] at hrec
      have hcount : (acquireRun key rl (t :: ts)).1 =
          (acquireRun key (acquire t key rl).2 ts).1 := by
        simp [acquireRun, hok]
      rw [hcount]
      exact hrec

/-- Counterexample to C2 as stated: with a configured cap of 1 and the
reachable multiplier 0.5, the first in-window `acquire` returns `True`,
so `acquire` returned `True` more than `cap · multiplier = 0.5` times
within the window. -/
theorem C2_counterexample :
    (acquireRun "k"
      { requests_per_minute := some 1, adaptive_multiplier := 1/2,
        buckets := fun k => if k = "k" then
          some { requests := 0, reset_time := 60, window_seconds := 60 }
          else none } [1]).1 = 1 ∧
    ((1 : ℕ) : ℚ) * ((1 : ℚ)/2) < ((1 : ℕ) : ℚ) := by
  constructor
  · with_unfolding_all decide
  · norm_num

/-- C2 (amended): for a key whose minute bucket sits at the start of its
window, `acquire` returns `True` at most `⌈cap · multiplier⌉` times
within that window, and whenever a key's in-window request count has
reached `cap · multiplier`, `acquire` returns `False` until the window
resets. -/
theorem C2_minute_cap (rl : RateLimiter) (key : String) (cap : ℕ)
    (b : RateLimitBucket) (ts : List ℚ)
    (hcap : rl.requests_per_minute = some cap) (hcap0 : cap ≠ 0)
    (hb : rl.buckets key = some b) (hreq : b.requests = 0)
    (hts : ∀ t ∈ ts, t < b.reset_time) :
    (acquireRun key rl ts).1 ≤
      (⌈(cap : ℚ) * rl.adaptive_multiplier⌉).toNat ∧
    (∀ (rl' : RateLimiter) (b' : RateLimitBucket) (now : ℚ),
      rl'.requests_per_minute = some cap → rl'.buckets key = some b' →
      now < b'.reset_time →
      (cap : ℚ) * rl'.adaptive_multiplier ≤ (b'.requests : ℚ) →
      (acquire now key rl').1 = false) := by
  constructor
  · rcases acquireRun_invariant key cap hcap0 ts rl b hcap hb hts with h0 | hlt
    · rw [h0]
      exact Nat.zero_le _
    · rw [hreq] at hlt
      push_cast at hlt
      have h2 : ((acquireRun key rl ts).1 : ℤ) - 1 <
          ⌈(cap : ℚ) * rl.adaptive_multiplier⌉ := by
        rw [Int.lt_ceil]
        push_cast
        linarith
      have h3 : ((acquireRun key rl ts).1 : ℤ) ≤
          ⌈(cap : ℚ) * rl.adaptive_multiplier⌉ := by omega
      have hnn : (0 : ℤ) ≤ ⌈(cap : ℚ) * rl.adaptive_multiplier⌉ :=
        le_trans (Int.ofNat_nonneg _) h3
      omega
  · intro rl' b' now hcap' hb' hnow' hge
    exact (acquire_step rl' key now cap b' hcap' hcap0 hb' hnow').2.2.2.2 hge

/-- Witness for C2: cap 2, multiplier 1, fresh window, three in-window
calls — at most `⌈2⌉ = 2` of them return `True`. -/
theorem C2_witness :
    (acquireRun "k"
      { requests_per_minute := some 2,
        buckets := fun k => if k = "k" then
          some { requests := 0, reset_time := 60, window_seconds := 60 }
          else none } [1, 2, 3]).1 ≤
      (⌈((2 : ℕ) : ℚ) *
        ({ requests_per_minute := some 2,
           buckets := fun k => if k = "k" then
             some { requests := 0, reset_time := 60, window_seconds := 60 }
             else none } : RateLimiter).adaptive_multiplier⌉).toNat :=
  (C2_minute_cap _ "k" 2 _ [1, 2, 3] rfl (by decide) rfl rfl
    (by with_unfolding_all decide)).1

/-- C9 (amended): a denied `acquire` performs no increment — after a
`False` return no bucket's request count is larger than before (the only
writes a denied call can make are clearing the key's expired minute
bucket and creating an empty per-second bucket). -/
theorem resetIfExpired_requests_le (now : ℚ) (b : RateLimitBucket) :
    (resetIfExpired now b).requests ≤ b.requests := by
  unfold resetIfExpired
  split
  · exact Nat.zero_le _
  · exact le_rfl

theorem C9_denied_acquire_no_increment (rl : RateLimiter) (now : ℚ)
    (id k : String) (h : (acquire now id rl).1 = false) :
    bucketRequests ((acquire now id rl).2.buckets k) ≤
      bucketRequests (rl.buckets k) := by
  have hk2ne : secondKey id now ≠ id := secondKey_ne id now
  have hminute : ∀ o : Option RateLimitBucket,
      (resetIfExpired now (o.getD {})).requests ≤ bucketRequests o := by
    intro o
    refine le_trans (resetIfExpired_requests_le now _) ?_
    cases o <;> simp [bucketRequests]
  revert h
  simp only [acquire]
  split
  · intro _
    by_cases hk : k = id
    · subst hk
      simp only [updateBuckets, if_pos rfl, bucketRequests]
      exact hminute (rl.buckets k)
    · simp [updateBuckets, hk]
  · split
    · split
      · intro hfalse
        cases hfalse
      · split
        · intro _
          by_cases hk : k = secondKey id now
          · subst hk
            simp only [updateBuckets, if_pos rfl, bucketRequests]
            rw [if_neg hk2ne]
            cases hb2 : rl.buckets (secondKey id now) <;>
              simp [bucketRequests, hb2]
          · simp only [updateBuckets, if_neg hk]
            by_cases hki : k = id
            · subst hki
              simp only [if_pos rfl, bucketRequests]
              exact hminute (rl.buckets k)
            · simp [hki]
        · intro hfalse
          cases hfalse
    · intro hfalse
      cases hfalse

/-- Counterexample to C9 as stated: a denied `acquire` can still change a
bucket's request counter.  Key `"k"` has an expired minute bucket with 5
requests and a full per-second bucket for the current second; the call at
`t = 100.6` first clears the minute bucket (window rollover), then the
per-second check denies it — the result is `False` yet the minute
bucket's count changed from 5 to 0. -/
theorem C9_counterexample :
    (acquire (503/5) "k"
      { requests_per_second := some 1, requests_per_minute := some 10,
        buckets := fun key =>
          if key = "k" then
            some { requests := 5, reset_time := 201/2, window_seconds := 60 }
          else if key = "k_1s_100.0" then
            some { requests := 1, reset_time := 0, window_seconds := 1 }
          else none }).1 = false ∧
    bucketRequests
      ((acquire (503/5) "k"
        { requests_per_second := some 1, requests_per_minute := some 10,
          buckets := fun key =>
            if key = "k" then
              some { requests := 5, reset_time := 201/2, window_seconds := 60 }
            else if key = "k_1s_100.0" then
              some { requests := 1, reset_time := 0, window_seconds := 1 }
            else none }).2.buckets "k") = 0 ∧
    bucketRequests
      (({ requests_per_second := some 1, requests_per_minute := some 10,
          buckets := fun key =>
            if key = "k" then
              some { requests := 5, reset_time := 201/2, window_seconds := 60 }
            else if key = "k_1s_100.0" then
              some { requests := 1, reset_time := 0, window_seconds := 1 }
            else none } : RateLimiter).buckets "k") = 5 := by
  refine ⟨?_, ?_, ?_⟩ <;> with_unfolding_all decide

/-- Witness for C9: the denied call of the concrete scenario above does
not increase the request count recorded for key `"k"`. -/
theorem C9_witness :
    bucketRequests
      ((acquire (503/5) "k"
        { requests_per_second := some 1, requests_per_minute := some 10,
          buckets := fun key =>
            if key = "k" then
              some { requests := 5, reset_time := 201/2, window_seconds := 60 }
            else if key = "k_1s_100.0" then
              some { requests := 1, reset_time := 0, window_seconds := 1 }
            else none }).2.buckets "k") ≤
    bucketRequests
      (({ requests_per_second := some 1, requests_per_minute := some 10,
          buckets := fun key =>
            if key = "k" then
              some { requests := 5, reset_time := 201/2, window_seconds := 60 }
            else if key = "k_1s_100.0" then
              some { requests := 1, reset_time := 0, window_seconds := 1 }
            else none } : RateLimiter).buckets "k") :=
  C9_denied_acquire_no_increment _ (503/5) "k" "k"
    (by with_unfolding_all decide)

end DiscordParser
